import Mathlib

/-!
Verification of the qhana-plugin-registry core against its specification.

The Python source is embedded shallowly: database tables become lists of
structures, SQL query filters become list/finset comprehensions, Python
`dict`s become association lists, and the control flow of the Celery tasks
becomes explicit case analysis over the possible outcomes of their
side-effecting calls (HTTP fetches, DB lookups).  Machine-level concerns do
not arise: the program manipulates strings, unbounded Python integers and
timestamps, which are modelled by `String`, `Nat`/`Int`.
-/

set_option autoImplicit false

namespace QhanaRegistry

/-! ## Python string primitives

`str.split(sep)` and `sep.join(parts)` for a one-character separator, as used
by the plugin filter code (`plugin_id.split("@")`, `"@".join(...)`).
Python's `split` with an explicit separator returns the (possibly empty)
chunks between separator occurrences; `"".split("@") == [""]`.
-/

/-- Auxiliary worker for `pySplit`: `acc` is the current chunk, reversed. -/
def pySplitAux (sep : Char) : List Char → List Char → List (List Char)
  | [], acc => [acc.reverse]
  | c :: rest, acc =>
    if c = sep then acc.reverse :: pySplitAux sep rest []
    else pySplitAux sep rest (c :: acc)

/-- Python `s.split(sep)` for a single-character separator `sep`. -/
def pySplit (sep : Char) (s : List Char) : List (List Char) :=
  pySplitAux sep s []

/-- Python `sep.join(parts)` for a single-character separator `sep`. -/
def pyJoin (sep : Char) : List (List Char) → List Char
  | [] => []
  | [x] => x
  | x :: y :: rest => x ++ sep :: pyJoin sep (y :: rest)

theorem pySplitAux_no_sep (sep : Char) (s acc : List Char) (h : sep ∉ s) :
    pySplitAux sep s acc = [acc.reverse ++ s] := by
  induction s generalizing acc with
  | nil => simp [pySplitAux]
  | cons c rest ih =>
    simp only [List.mem_cons, not_or] at h
    have hne : ¬ c = sep := fun hc => h.1 hc.symm
    simp only [pySplitAux, if_neg hne]
    rw [ih _ h.2]
    simp

theorem pySplit_no_sep (sep : Char) (s : List Char) (h : sep ∉ s) :
    pySplit sep s = [s] := by
  simpa using pySplitAux_no_sep sep s [] h

theorem pySplitAux_sep_cons (sep : Char) (s acc : List Char) :
    pySplitAux sep (sep :: s) acc = acc.reverse :: pySplit sep s := by
  simp [pySplitAux, pySplit]

theorem pySplitAux_append_no_sep (sep : Char) (a s acc : List Char) (h : sep ∉ a) :
    pySplitAux sep (a ++ s) acc = pySplitAux sep s (a.reverse ++ acc) := by
  induction a generalizing acc with
  | nil => simp
  | cons c rest ih =>
    simp only [List.mem_cons, not_or] at h
    have hne : ¬ c = sep := fun hc => h.1 hc.symm
    simp only [List.cons_append, pySplitAux, if_neg hne, List.append_eq]
    rw [ih _ h.2]
    simp

/-- Splitting `a ++ sep :: b` where `a` is separator-free peels off `a`. -/
theorem pySplit_append_sep (sep : Char) (a b : List Char) (h : sep ∉ a) :
    pySplit sep (a ++ sep :: b) = a :: pySplit sep b := by
  unfold pySplit
  rw [pySplitAux_append_no_sep sep a _ [] h]
  simp [pySplitAux_sep_cons, pySplit]

theorem pySplit_ne_nil (sep : Char) (s : List Char) : pySplit sep s ≠ [] := by
  unfold pySplit
  generalize ([] : List Char) = acc
  induction s generalizing acc with
  | nil => simp [pySplitAux]
  | cons c rest ih =>
    simp only [pySplitAux]
    split
    · simp
    · exact ih _

/-- Every chunk produced by `pySplit` is free of the separator. -/
theorem pySplit_chunks_no_sep (sep : Char) (s : List Char) :
    ∀ chunk ∈ pySplit sep s, sep ∉ chunk := by
  unfold pySplit
  suffices h : ∀ acc, sep ∉ acc → ∀ chunk ∈ pySplitAux sep s acc, sep ∉ chunk by
    exact h [] (by simp)
  induction s with
  | nil =>
    intro acc hacc chunk hc
    simp only [pySplitAux, List.mem_singleton] at hc
    subst hc
    simpa using hacc
  | cons c rest ih =>
    intro acc hacc chunk hc
    simp only [pySplitAux] at hc
    split at hc
    · rcases List.mem_cons.mp hc with h1 | h2
      · subst h1; simpa using hacc
      · exact ih [] (by simp) chunk h2
    · refine ih (c :: acc) ?_ chunk hc
      simp only [List.mem_cons, not_or]
      exact ⟨fun hce => by simp_all, hacc⟩

/-! ## Purge task (`tasks/plugin_discovery.py`, `purge_plugins`)

The plugin table is modelled as a list of rows carrying the
`last_available` timestamp (seconds, as an integer).  The task reads the
`PLUGIN_PURGE_AFTER` configuration value, resolves it to a duration and
deletes every `RAMP` row whose `last_available` lies strictly before the
maximum `last_available` in the table minus that duration.
-/

/-- A row of the `RAMP` table, reduced to the columns the purge task reads.
`pid` stands in for the primary key so that rows stay distinguishable. -/
structure PurgeRow where
  pid : Nat
  last_available : Int
  deriving DecidableEq, Repr

/-- The possible values of the `PLUGIN_PURGE_AFTER` configuration entry:
`"never"`, `None`, `"auto"`, another string, or a number of seconds
(Python also admits floats; the claims only concern whole seconds). -/
inductive PurgeAfter where
  | never
  | null
  | auto
  | other (s : String)
  | seconds (n : Int)
  deriving DecidableEq, Repr

/-- `select(RAMP.last_available).order_by(desc(RAMP.last_available))` followed
by `.first()`: the maximum `last_available` of the table, if any. -/
def latestAvailable : List PurgeRow → Option Int
  | [] => none
  | r :: rs =>
    match latestAvailable rs with
    | none => some r.last_available
    | some m => some (max r.last_available m)

/-- `purge_plugins` from `tasks/plugin_discovery.py`: resolves the
`PLUGIN_PURGE_AFTER` setting (`purge_after in ("never", -1)` or `None` skips;
`"auto"` uses ten discovery intervals when the interval is at least 5 and
numeric; any other string aborts) and deletes every row with
`last_available < latest_date - purge_after`.  Returns the table after the
delete statement. -/
def purge_plugins (purge_after : PurgeAfter) (discovery_interval : Option Int)
    (table : List PurgeRow) : List PurgeRow :=
  match purge_after with
  | .never => table
  | .null => table
  | .other _ => table
  | .auto =>
    match discovery_interval with
    | none => table
    | some interval =>
      if interval < 5 then table
      else purgeWith (interval * 10) table
  | .seconds n => if n = -1 then table else purgeWith n table
where
  /-- The delete statement guarded by the empty-table check. -/
  purgeWith (t : Int) (table : List PurgeRow) : List PurgeRow :=
    match latestAvailable table with
    | none => table
    | some latest => table.filter (fun r => ¬ r.last_available < latest - t)

theorem latestAvailable_isSome {table : List PurgeRow} (h : table ≠ []) :
    ∃ m, latestAvailable table = some m := by
  cases table with
  | nil => exact absurd rfl h
  | cons r rs =>
    cases hm : latestAvailable rs with
    | none => exact ⟨r.last_available, by simp [latestAvailable, hm]⟩
    | some m => exact ⟨max r.last_available m, by simp [latestAvailable, hm]⟩

theorem le_latestAvailable {table : List PurgeRow} {r : PurgeRow} {m : Int}
    (hr : r ∈ table) (hm : latestAvailable table = some m) :
    r.last_available ≤ m := by
  induction table generalizing m with
  | nil => cases hr
  | cons a rs ih =>
    rcases List.mem_cons.mp hr with h1 | h2
    · subst h1
      unfold latestAvailable at hm
      cases hrs : latestAvailable rs with
      | none => simp [hrs] at hm; omega
      | some m' => simp [hrs] at hm; omega
    · unfold latestAvailable at hm
      cases hrs : latestAvailable rs with
      | none =>
        exfalso
        have hne : rs ≠ [] := List.ne_nil_of_mem h2
        rcases latestAvailable_isSome hne with ⟨m', hm'⟩
        rw [hm'] at hrs
        cases hrs
      | some m' =>
        have := ih h2 hrs
        simp [hrs] at hm
        omega

theorem latestAvailable_mem {table : List PurgeRow} {m : Int}
    (hm : latestAvailable table = some m) :
    ∃ r ∈ table, r.last_available = m := by
  induction table generalizing m with
  | nil => simp [latestAvailable] at hm
  | cons a rs ih =>
    unfold latestAvailable at hm
    cases hrs : latestAvailable rs with
    | none =>
      simp [hrs] at hm
      exact ⟨a, by simp, hm⟩
    | some m' =>
      simp [hrs] at hm
      rcases max_cases a.last_available m' with ⟨heq, _⟩ | ⟨heq, _⟩
      · exact ⟨a, by simp, by omega⟩
      · rcases ih hrs with ⟨r, hrmem, hrval⟩
        exact ⟨r, by simp [hrmem], by omega⟩

/-! ## Discovery task (`tasks/plugin_discovery.py`, `discover_plugins_from_seeds`)

The task performs up to two HTTP fetches: the seed itself and, when the seed
does not look like a plugin resource, the follow-up `<seed>/plugins` listing
of a plugin runner.  Each fetch either yields parsed JSON or raises one of
the `requests` exception classes.  The embedding keeps the JSON abstract
except for the parts the control flow inspects: whether the top-level keys
cover the plugin signature key set, and the `apiRoot` entries of a runner
listing.

The second `try` block reads, in the source,
`except JSONDecodeError or ConnectionError or RequestException as err`.
Python evaluates `A or B or C` on class objects to `A`, so this `except`
clause catches only `JSONDecodeError`; the embedding reproduces exactly
that.
-/

/-- Outcome of one `open_url(...).json()` call: parsed JSON data, or one of
the exception classes raised by `requests`.  `httpError` carries the status
code raised by `raise_for_status`; requests' `JSONDecodeError` is distinct
from `ConnectionError`/`HTTPError` and other `RequestException`s. -/
inductive FetchOutcome (α : Type) where
  | ok (data : α)
  | jsonError
  | connError
  | httpError (status : Nat)
  | reqError
  deriving DecidableEq, Repr

/-- The JSON body of a seed response, reduced to what the task inspects:
its top-level key set and, for runner listings, the `apiRoot` values of the
`plugins` entries (`none` when an entry has no `apiRoot`). -/
structure SeedJson where
  keys : List String
  pluginsApiRoots : List (Option String)
  deriving DecidableEq, Repr

/-- `PLUGIN_KEYS` from `tasks/plugin_discovery.py`. -/
def PLUGIN_KEYS : List String :=
  ["name", "version", "title", "description", "type", "tags", "entryPoint"]

/-- `data.keys() >= PLUGIN_KEYS`: superset test on the key set. -/
def isPluginResource (d : SeedJson) : Bool :=
  PLUGIN_KEYS.all (fun k => d.keys.contains k)

/-- What the task run amounts to, observationally: either it returns
normally with a catalog/scheduling effect, or it lets an exception escape. -/
inductive TaskResult where
  /-- depth guard hit, logged as error, returns -/
  | abortedTooDeep
  /-- returned with no catalog effect -/
  | returnedNoEffect
  /-- deleted the plugin row with the seed's URL, then returned -/
  | deletedPluginByUrl
  /-- upserted the plugin from its self-description, refreshing
  `last_available`; the flag records whether it was newly created -/
  | ingestedPlugin (isNew : Bool)
  /-- scheduled child discovery tasks for the given `apiRoot` seeds -/
  | scheduledChildren (seeds : List String)
  /-- an exception escaped the task -/
  | raised (e : FetchOutcome Unit)
  deriving DecidableEq, Repr

/-- `discover_plugins_from_seeds`: control flow of the per-seed task as a
function of its inputs and of the outcomes of its two fetches.  `fetch1` is
`open_url(seed, timeout=5).json()`; `fetch2` is
`open_url(seed.rstrip("/") + "/plugins", timeout=10).json()` and is consulted
only on the runner path.  `wouldCreate` tells whether the upsert in
`update_plugin_data` finds no existing row (decided by the catalog, which
the control flow does not otherwise inspect). -/
def discover_plugins_from_seeds (nesting : Nat) (delete_on_missing : Bool)
    (fetch1 : FetchOutcome SeedJson) (fetch2 : FetchOutcome SeedJson)
    (wouldCreate : Bool) : TaskResult :=
  if nesting > 3 then .abortedTooDeep
  else
    match fetch1 with
    | .jsonError => .returnedNoEffect
    | .connError =>
      if delete_on_missing then .deletedPluginByUrl else .returnedNoEffect
    | .httpError status =>
      if status = 404 then
        if delete_on_missing then .deletedPluginByUrl else .returnedNoEffect
      else .returnedNoEffect
    | .reqError => .returnedNoEffect
    | .ok data =>
      if isPluginResource data then .ingestedPlugin wouldCreate
      else
        match fetch2 with
        | .ok d2 => .scheduledChildren (d2.pluginsApiRoots.filterMap id)
        | .jsonError => .returnedNoEffect
        | .connError => .raised .connError
        | .httpError status => .raised (.httpError status)
        | .reqError => .raised .reqError

/-- Claim C6: when the purge task runs with `purge_after` set to a positive
number of seconds `T`, a plugin row is deleted if and only if its
`last_available` is strictly earlier than the maximum `last_available` over
all plugins minus `T`; a row whose timestamp equals that boundary exactly is
kept. -/
theorem c6_purge_boundary (T : Int) (di : Option Int) (table : List PurgeRow)
    (m : Int) (hT : 0 < T) (hm : latestAvailable table = some m) :
    ∀ r ∈ table,
      (r ∈ purge_plugins (.seconds T) di table ↔ ¬ r.last_available < m - T)
      ∧ (r.last_available = m - T → r ∈ purge_plugins (.seconds T) di table) := by
  intro r hr
  have hTne : T ≠ -1 := by omega
  have hres : purge_plugins (.seconds T) di table
      = table.filter (fun r => ¬ r.last_available < m - T) := by
    simp [purge_plugins, hTne, purge_plugins.purgeWith, hm]
  constructor
  · rw [hres]
    simp only [List.mem_filter, decide_not]
    constructor
    · intro ⟨_, hkeep⟩
      simpa using hkeep
    · intro hkeep
      exact ⟨hr, by simpa using hkeep⟩
  · intro hb
    rw [hres]
    simp only [List.mem_filter, decide_not]
    exact ⟨hr, by simp [hb]⟩

/-- Witness for `c6_purge_boundary`: with `T = 5` on a table whose maximum
timestamp is `10`, the row at `3 < 5` is deleted and the row exactly at the
boundary `5` is kept. -/
theorem c6_purge_boundary_witness :
    ((⟨2, 3⟩ : PurgeRow) ∉ purge_plugins (.seconds 5) none
        [⟨1, 10⟩, ⟨2, 3⟩, ⟨3, 5⟩])
    ∧ ((⟨3, 5⟩ : PurgeRow) ∈ purge_plugins (.seconds 5) none
        [⟨1, 10⟩, ⟨2, 3⟩, ⟨3, 5⟩]) := by
  have h := c6_purge_boundary 5 none [⟨1, 10⟩, ⟨2, 3⟩, ⟨3, 5⟩] 10
    (by decide) (by decide)
  constructor
  · have h2 := (h ⟨2, 3⟩ (by decide)).1
    intro hmem
    exact (h2.mp hmem) (by decide)
  · exact (h ⟨3, 5⟩ (by decide)).2 (by decide)

/-- Claim C10: whenever the purge task runs with `purge_after` resolved to a
non-negative number of seconds on a non-empty plugin table, the rows whose
`last_available` equals the table maximum are never deleted, so a non-empty
catalog is never emptied by a single purge run. -/
theorem c10_purge_keeps_maximum (T : Int) (di : Option Int)
    (table : List PurgeRow) (m : Int) (hT : 0 ≤ T)
    (hm : latestAvailable table = some m) :
    (∀ r ∈ table, r.last_available = m →
      r ∈ purge_plugins (.seconds T) di table)
    ∧ purge_plugins (.seconds T) di table ≠ [] := by
  have hTne : T ≠ -1 := by omega
  have hres : purge_plugins (.seconds T) di table
      = table.filter (fun r => ¬ r.last_available < m - T) := by
    simp [purge_plugins, hTne, purge_plugins.purgeWith, hm]
  have hkeepmax : ∀ r ∈ table, r.last_available = m →
      r ∈ purge_plugins (.seconds T) di table := by
    intro r hr hrm
    rw [hres]
    simp only [List.mem_filter, decide_not]
    refine ⟨hr, ?_⟩
    simp only [Bool.not_eq_eq_eq_not, Bool.not_true, decide_eq_false_iff_not,
      not_lt]
    omega
  refine ⟨hkeepmax, ?_⟩
  rcases latestAvailable_mem hm with ⟨r, hr, hrm⟩
  exact List.ne_nil_of_mem (hkeepmax r hr hrm)

/-- Witness for `c10_purge_keeps_maximum`: with `T = 0` the single row at
the maximum survives the purge. -/
theorem c10_purge_keeps_maximum_witness :
    ((⟨1, 7⟩ : PurgeRow) ∈ purge_plugins (.seconds 0) none [⟨1, 7⟩, ⟨2, 2⟩])
    ∧ purge_plugins (.seconds 0) none [⟨1, 7⟩, ⟨2, 2⟩] ≠ [] := by
  have h := c10_purge_keeps_maximum 0 none [⟨1, 7⟩, ⟨2, 2⟩] 7
    (by decide) (by decide)
  exact ⟨h.1 ⟨1, 7⟩ (by decide) (by decide), h.2⟩

/-- Claim C7 (code bug): a transient network error on the follow-up fetch of
a plugin runner's `/plugins` listing is supposed to be logged with the task
returning normally, but the `except JSONDecodeError or ConnectionError or
RequestException` clause catches only `JSONDecodeError` (Python evaluates
the `or` of class objects to its first operand), so a `ConnectionError`, an
`HTTPError` or any other `RequestException` raised by that second fetch
escapes the task.  The same errors on the first fetch are handled, which
shows the discrepancy is specific to the `/plugins` fetch. -/
theorem c7_plugins_fetch_network_error_raises :
    discover_plugins_from_seeds 0 false (.ok ⟨[], []⟩) .connError false
        = .raised .connError
    ∧ discover_plugins_from_seeds 0 false (.ok ⟨[], []⟩) .reqError false
        = .raised .reqError
    ∧ discover_plugins_from_seeds 0 false (.ok ⟨[], []⟩) (.httpError 500) false
        = .raised (.httpError 500)
    ∧ discover_plugins_from_seeds 0 false .connError (.ok ⟨[], []⟩) false
        = .returnedNoEffect
    ∧ discover_plugins_from_seeds 0 false .reqError (.ok ⟨[], []⟩) false
        = .returnedNoEffect := by
  decide

/-! ## PEP 440 versions

`db/models/plugins.py` and `tasks/plugin_filter.py` rely on
`packaging.version.parse` / `Version` / `SpecifierSet` (an external
dependency).  The following definitions model that library: a parser for the
PEP 440 grammar (strings it rejects are `LegacyVersion`s in the vintage of
`packaging` the repository pins, signalled here by `none`), and the
`_cmpkey`-based total preorder on parsed versions.
-/

/-- The components `packaging.version.Version` extracts from a version
string: epoch, release segments, normalized pre-release pair, post and dev
numbers, and local segments (numeric segments as numbers). -/
structure PepVersion where
  epoch : Nat
  release : List Nat
  pre : Option (String × Nat)
  post : Option Nat
  dev : Option Nat
  localSegs : Option (List (Sum Nat String))
  deriving DecidableEq, Repr

/-- Numeric value of a list of decimal digit characters. -/
def natOfDigits (ds : List Char) : Nat :=
  ds.foldl (fun n c => 10 * n + (c.toNat - 48)) 0

/-- Consume `w` as a literal prefix of `cs`. -/
def matchPrefix (w : List Char) (cs : List Char) : Option (List Char) :=
  match w, cs with
  | [], rest => some rest
  | _ :: _, [] => none
  | x :: xs, c :: rest => if c = x then matchPrefix xs rest else none

theorem length_dropWhile_le {α : Type} (p : α → Bool) (l : List α) :
    (l.dropWhile p).length ≤ l.length := by
  induction l with
  | nil => simp [List.dropWhile]
  | cons a as ih =>
    rw [List.dropWhile]
    split
    · exact Nat.le_succ_of_le ih
    · simp

/-- Worker for `parseReleaseRest`, structurally recursive on a fuel
argument (each step consumes at least the dot, so `cs.length` fuel never
runs out). -/
def parseReleaseRestGo : Nat → List Char → List Nat → List Nat × List Char
  | 0, cs, acc => (acc.reverse, cs)
  | fuel + 1, cs, acc =>
    match cs with
    | '.' :: rest =>
      let ds := rest.takeWhile Char.isDigit
      if ds.isEmpty then (acc.reverse, cs)
      else parseReleaseRestGo fuel (rest.dropWhile Char.isDigit)
        (natOfDigits ds :: acc)
    | _ => (acc.reverse, cs)

/-- Remaining `.digits` release segments (the release group's
`(?:\.[0-9]+)*`). -/
def parseReleaseRest (cs : List Char) (acc : List Nat) : List Nat × List Char :=
  parseReleaseRestGo cs.length cs acc

/-- The release group `[0-9]+(?:\.[0-9]+)*`. -/
def parseRelease (cs : List Char) : Option (List Nat × List Char) :=
  let ds := cs.takeWhile Char.isDigit
  if ds.isEmpty then none
  else some (parseReleaseRest (cs.dropWhile Char.isDigit) [natOfDigits ds])

/-- An optional single separator out of `-`, `_`, `.`. -/
def skipSep (cs : List Char) : List Char :=
  match cs with
  | c :: rest => if c = '-' ∨ c = '_' ∨ c = '.' then rest else cs
  | [] => cs

/-- Pre-release spellings, longest first, with their normalized forms
(`alpha → a`, `beta → b`, `c/pre/preview → rc`). -/
def preSpellings : List (String × String) :=
  [("preview", "rc"), ("alpha", "a"), ("beta", "b"), ("pre", "rc"),
   ("rc", "rc"), ("a", "a"), ("b", "b"), ("c", "rc")]

/-- Try the given spellings in order and return the normalized form. -/
def matchSpelling (spellings : List (String × String)) (cs : List Char) :
    Option (String × List Char) :=
  match spellings with
  | [] => none
  | (w, norm) :: rest =>
    match matchPrefix w.data cs with
    | some remaining => some (norm, remaining)
    | none => matchSpelling rest cs

/-- An optional trailing separator (consumed greedily, as the regex's
`[-_\.]?` does) and an optional number defaulting to 0, shared by the
pre/post/dev groups. -/
def parseSepNumber (cs : List Char) : Nat × List Char :=
  let cs1 := skipSep cs
  let ds := cs1.takeWhile Char.isDigit
  (natOfDigits ds, cs1.dropWhile Char.isDigit)

/-- The pre-release group `[-_\.]?(a|b|c|rc|alpha|beta|pre|preview)[-_\.]?[0-9]*`;
consumes nothing when no spelling follows the optional separator. -/
def parsePre (cs : List Char) : Option (String × Nat) × List Char :=
  match matchSpelling preSpellings (skipSep cs) with
  | none => (none, cs)
  | some (norm, rest) =>
    let (n, rest2) := parseSepNumber rest
    (some (norm, n), rest2)

/-- The post-release group: either `-N` or
`[-_\.]?(post|rev|r)[-_\.]?[0-9]*`. -/
def parsePost (cs : List Char) : Option Nat × List Char :=
  match cs with
  | '-' :: rest =>
    let ds := rest.takeWhile Char.isDigit
    if ds.isEmpty then parsePostWord cs
    else (some (natOfDigits ds), rest.dropWhile Char.isDigit)
  | _ => parsePostWord cs
where
  parsePostWord (cs : List Char) : Option Nat × List Char :=
    match matchSpelling [("post", "post"), ("rev", "post"), ("r", "post")]
        (skipSep cs) with
    | none => (none, cs)
    | some (_, rest) =>
      let (n, rest2) := parseSepNumber rest
      (some n, rest2)

/-- The dev-release group `[-_\.]?dev[-_\.]?[0-9]*`. -/
def parseDev (cs : List Char) : Option Nat × List Char :=
  match matchSpelling [("dev", "dev")] (skipSep cs) with
  | none => (none, cs)
  | some (_, rest) =>
    let (n, rest2) := parseSepNumber rest
    (some n, rest2)

/-- A local version segment: ASCII alphanumerics only. -/
def isLocalChar (c : Char) : Bool :=
  c.isDigit || ('a' ≤ c && c ≤ 'z')

/-- Classify one local segment: all-numeric segments become numbers. -/
def localSegment (cs : List Char) : Sum Nat String :=
  if cs.all Char.isDigit then Sum.inl (natOfDigits cs)
  else Sum.inr (String.mk cs)

/-- Worker for `parseLocalSegs`, structurally recursive on a fuel argument
(each step consumes at least the separator, so `cs.length` fuel never runs
out). -/
def parseLocalSegsGo : Nat → List Char → Option (List (Sum Nat String))
  | 0, _ => none
  | fuel + 1, cs =>
    let seg := cs.takeWhile isLocalChar
    if seg.isEmpty then none
    else
      match cs.dropWhile isLocalChar with
      | [] => some [localSegment seg]
      | c :: rest =>
        if c = '-' ∨ c = '_' ∨ c = '.' then
          match parseLocalSegsGo fuel rest with
          | some segs => some (localSegment seg :: segs)
          | none => none
        else none

/-- Segments of the local version after `+`, split on `-`, `_`, `.`;
every segment must be a non-empty run of `[a-z0-9]`. -/
def parseLocalSegs (cs : List Char) : Option (List (Sum Nat String)) :=
  parseLocalSegsGo (cs.length + 1) cs

/-- `packaging.version.parse`, modelled from the PEP 440 grammar the library
implements (case-insensitive, optional `v` prefix, surrounding whitespace):
returns `none` exactly when the library would fall back to
`LegacyVersion`. -/
def parsePep (version : String) : Option PepVersion :=
  let cs := ((version.data.map Char.toLower).dropWhile
    Char.isWhitespace).reverse.dropWhile Char.isWhitespace |>.reverse
  let cs := match cs with
    | 'v' :: rest => rest
    | other => other
  -- epoch `([0-9]+!)?`
  let (epoch, cs) :=
    match (matchPrefix ['!'] (cs.dropWhile Char.isDigit) : Option (List Char)) with
    | some rest =>
      let ds := cs.takeWhile Char.isDigit
      if ds.isEmpty then (none, cs) else (some (natOfDigits ds), rest)
    | none => (some 0, cs)
  match epoch with
  | none => none
  | some epoch =>
    match parseRelease cs with
    | none => none
    | some (release, cs) =>
      let (pre, cs) := parsePre cs
      let (post, cs) := parsePost cs
      let (dev, cs) := parseDev cs
      match cs with
      | [] => some ⟨epoch, release, pre, post, dev, none⟩
      | '+' :: rest =>
        match parseLocalSegs rest with
        | some segs => some ⟨epoch, release, pre, post, dev, some segs⟩
        | none => none
      | _ => none

/-- Release segments with trailing zeros removed, as in
`packaging.version._cmpkey`. -/
def releaseCanon : List Nat → List Nat
  | [] => []
  | a :: as =>
    match releaseCanon as with
    | [] => if a = 0 then [] else [a]
    | rest => a :: rest

/-- Lexicographic comparison of release tuples (Python tuple comparison). -/
def cmpListNat : List Nat → List Nat → Ordering
  | [], [] => .eq
  | [], _ :: _ => .lt
  | _ :: _, [] => .gt
  | a :: as, b :: bs => (compare a b).then (cmpListNat as bs)

/-- The `_pre` component of `_cmpkey`: `NegativeInfinity` for a bare dev
release, `Infinity` when there is no pre-release, the pair otherwise.
Encoded as a rank plus the pair. -/
def preRank (v : PepVersion) : Nat :=
  if v.pre = none ∧ v.post = none ∧ v.dev ≠ none then 0
  else if v.pre = none then 2
  else 1

/-- Comparison of the `_pre` components of two versions. -/
def cmpPreKey (v1 v2 : PepVersion) : Ordering :=
  (compare (preRank v1) (preRank v2)).then
    (match v1.pre, v2.pre with
     | some (l1, n1), some (l2, n2) => (compare l1 l2).then (compare n1 n2)
     | _, _ => .eq)

/-- Comparison of the `_post` components (`NegativeInfinity` when absent). -/
def cmpPost : Option Nat → Option Nat → Ordering
  | none, none => .eq
  | none, some _ => .lt
  | some _, none => .gt
  | some a, some b => compare a b

/-- Comparison of the `_dev` components (`Infinity` when absent). -/
def cmpDev : Option Nat → Option Nat → Ordering
  | none, none => .eq
  | none, some _ => .gt
  | some _, none => .lt
  | some a, some b => compare a b

/-- Comparison of two local segments: numeric segments compare as
`(i, "")`, string segments as `(NegativeInfinity, s)`, so any number
exceeds any string. -/
def cmpLocalSeg : Sum Nat String → Sum Nat String → Ordering
  | .inl a, .inl b => compare a b
  | .inl _, .inr _ => .gt
  | .inr _, .inl _ => .lt
  | .inr a, .inr b => compare a b

/-- Lexicographic comparison of local segment lists. -/
def cmpLocalSegs : List (Sum Nat String) → List (Sum Nat String) → Ordering
  | [], [] => .eq
  | [], _ :: _ => .lt
  | _ :: _, [] => .gt
  | a :: as, b :: bs => (cmpLocalSeg a b).then (cmpLocalSegs as bs)

/-- Comparison of the `_local` components (`NegativeInfinity` when absent). -/
def cmpLocal : Option (List (Sum Nat String)) → Option (List (Sum Nat String)) → Ordering
  | none, none => .eq
  | none, some _ => .lt
  | some _, none => .gt
  | some a, some b => cmpLocalSegs a b

/-- `packaging.version._cmpkey` comparison: epoch, canonical release,
pre, post, dev, local, in order. -/
def pepCompare (v1 v2 : PepVersion) : Ordering :=
  (compare v1.epoch v2.epoch).then
    ((cmpListNat (releaseCanon v1.release) (releaseCanon v2.release)).then
      ((cmpPreKey v1 v2).then
        ((cmpPost v1.post v2.post).then
          ((cmpDev v1.dev v2.dev).then
            (cmpLocal v1.localSegs v2.localSegs)))))

/-- Strict PEP 440 order on parsed versions (`Version.__lt__`). -/
def pepLt (v1 v2 : PepVersion) : Bool :=
  pepCompare v1 v2 == .lt

/-- PEP 440 equivalence on parsed versions (`Version.__eq__`), e.g.
`1.0 == 1.0.0`. -/
def pepEq (v1 v2 : PepVersion) : Bool :=
  pepCompare v1 v2 == .eq

/-! ## PEP 440 specifiers

Model of `packaging.specifiers.Specifier` / `SpecifierSet` (the external
dependency used by the `version` filter leaf and the query builder).  Legacy
(non-PEP-440) specifiers, which the pinned vintage of `packaging` still
accepted with a deprecation warning, are treated as invalid here.
-/

/-- Whether a version is a pre-release (`Version.is_prerelease`). -/
def pepIsPrerelease (v : PepVersion) : Bool :=
  v.dev ≠ none ∨ v.pre ≠ none

/-- Whether a version is a post-release (`Version.is_postrelease`). -/
def pepIsPostrelease (v : PepVersion) : Bool :=
  v.post ≠ none

/-- `Version.base_version`: epoch and release only. -/
def pepBase (v : PepVersion) : PepVersion :=
  ⟨v.epoch, v.release, none, none, none, none⟩

/-- The normalized string form of a version (`Version.__str__`). -/
def renderPep (v : PepVersion) : String :=
  let epochPart := if v.epoch ≠ 0 then toString v.epoch ++ "!" else ""
  let releasePart := String.intercalate (".") (v.release.map toString)
  let prePart := match v.pre with
    | some (l, n) => l ++ toString n
    | none => ""
  let postPart := match v.post with
    | some n => ".post" ++ toString n
    | none => ""
  let devPart := match v.dev with
    | some n => ".dev" ++ toString n
    | none => ""
  let localPart := match v.localSegs with
    | some segs =>
      "+" ++ String.intercalate (".") (segs.map (fun s => match s with
        | .inl n => toString n
        | .inr str => str))
    | none => ""
  epochPart ++ releasePart ++ prePart ++ postPart ++ devPart ++ localPart

/-- Split one dot-segment further when it matches `^([0-9]+)((a|b|c|rc)[0-9]+)$`
(the `_prefix_regex` of `packaging.specifiers._version_split`). -/
def segSplit (seg : List Char) : List (List Char) :=
  let ds := seg.takeWhile Char.isDigit
  let rest := seg.dropWhile Char.isDigit
  let letterTail : Option (List Char) :=
    match matchPrefix ['r', 'c'] rest with
    | some t => some t
    | none =>
      match rest with
      | 'a' :: t => some t
      | 'b' :: t => some t
      | 'c' :: t => some t
      | _ => none
  match letterTail with
  | some t =>
    if ds.isEmpty ∨ t.isEmpty ∨ ¬ t.all Char.isDigit then [seg]
    else [ds, rest]
  | none => [seg]

/-- `packaging.specifiers._version_split`. -/
def versionSplit (s : String) : List String :=
  ((pySplit '.' s.data).flatMap segSplit).map String.mk

/-- Python `str.isdigit` on an ASCII segment (empty strings are not digit
strings). -/
def isDigitSegment (s : String) : Bool :=
  ¬ s.data.isEmpty ∧ s.data.all Char.isDigit

/-- `packaging.specifiers._pad_version`: left-pad the digit prefix of the
shorter side with `"0"` segments. -/
def padVersion (l r : List String) : List String × List String :=
  let ldigits := l.takeWhile isDigitSegment
  let rdigits := r.takeWhile isDigitSegment
  let lrest := l.drop ldigits.length
  let rrest := r.drop rdigits.length
  (ldigits ++ List.replicate (rdigits.length - ldigits.length) ("0") ++ lrest,
   rdigits ++ List.replicate (ldigits.length - rdigits.length) ("0") ++ rrest)

/-- `Specifier._compare_equal` for a `.*` wildcard specifier with base
string `specBase`: compare the split-and-padded segment lists, the
prospective version truncated to the specifier's length and stripped of its
local part. -/
def wildcardEqual (specBase : String) (item : PepVersion) : Bool :=
  let splitSpec := versionSplit specBase
  let splitItem := versionSplit (renderPep { item with localSegs := none })
  let shortened := splitItem.take splitSpec.length
  let (ps, pi) := padVersion splitSpec shortened
  ps == pi

/-- The comparison operators of a PEP 440 version specifier. -/
inductive SpecOp where
  | compatible
  | eq
  | ne
  | le
  | ge
  | lt
  | gt
  | arbitrary
  deriving DecidableEq, Repr

/-- One parsed specifier clause: operator plus raw version text (with a
flag for a trailing `.*` on `==`/`!=`, in which case `version` is the text
without the wildcard). -/
structure Specifier where
  op : SpecOp
  version : String
  wildcard : Bool
  deriving DecidableEq, Repr

/-- Whether a segment starts one of the suffix spellings
(`packaging.specifiers._is_not_suffix`, negated). -/
def isSuffixSegment (s : String) : Bool :=
  [("dev" : String), "a", "b", "c", "rc", "post"].any
    (fun w => (matchPrefix w.data s.data).isSome)

/-- `Specifier._compare_compatible`'s derived prefix: the spec's segments up
to the first suffix, with the last one dropped, re-joined. -/
def compatiblePrefix (spec : String) : String :=
  String.intercalate (".")
    ((versionSplit spec).takeWhile (fun s => ¬ isSuffixSegment s)).dropLast

/-- One specifier clause's containment test, with pre-releases already
admitted (the set-level gate handles them), following the
`_compare_*` operators of `packaging.specifiers.Specifier`. -/
def specContains (sp : Specifier) (item : PepVersion) : Bool :=
  match parsePep sp.version with
  | none => sp.op = .arbitrary ∧ renderPep item = sp.version.toLower
  | some specV =>
    match sp.op with
    | .arbitrary => renderPep item = sp.version.toLower
    | .eq =>
      if sp.wildcard then wildcardEqual sp.version item
      else
        let item := if specV.localSegs = none then { item with localSegs := none }
          else item
        pepEq item specV
    | .ne =>
      if sp.wildcard then ¬ wildcardEqual sp.version item
      else
        let item := if specV.localSegs = none then { item with localSegs := none }
          else item
        ¬ pepEq item specV
    | .le => pepCompare { item with localSegs := none } specV ≠ .gt
    | .ge => pepCompare { item with localSegs := none } specV ≠ .lt
    | .lt =>
      pepLt item specV
        ∧ ¬ (¬ pepIsPrerelease specV ∧ pepIsPrerelease item
              ∧ pepEq (pepBase item) (pepBase specV))
    | .gt =>
      pepLt specV item
        ∧ ¬ (¬ pepIsPostrelease specV ∧ pepIsPostrelease item
              ∧ pepEq (pepBase item) (pepBase specV))
        ∧ ¬ (item.localSegs ≠ none ∧ pepEq (pepBase item) (pepBase specV))
    | .compatible =>
      (pepCompare { item with localSegs := none } specV ≠ .lt)
        ∧ wildcardEqual (compatiblePrefix sp.version) item

/-- `Specifier.prereleases`: the clause admits pre-releases when its
operator is one of `==`, `>=`, `<=`, `~=`, `===` and its version (without a
`.*` wildcard) is itself a pre-release. -/
def specPrereleases (sp : Specifier) : Bool :=
  ((sp.op == .eq) || (sp.op == .ge) || (sp.op == .le) || (sp.op == .compatible)
      || (sp.op == .arbitrary))
    && match parsePep sp.version with
       | some v => pepIsPrerelease v
       | none => false

/-- Parse one specifier clause (already stripped): operator prefix, then a
version valid for that operator.  Returns `none` for anything the PEP 440
specifier grammar rejects. -/
def parseSpecifier (s : String) : Option Specifier :=
  let tryOps : List (String × SpecOp) :=
    [("===", .arbitrary), ("==", .eq), ("!=", .ne), ("~=", .compatible),
     ("<=", .le), (">=", .ge), ("<", .lt), (">", .gt)]
  match matchSpelling (tryOps.map (fun (w, _) => (w, w))) s.data with
  | none => none
  | some (opStr, rest) =>
    match tryOps.lookup opStr with
    | none => none
    | some op =>
      let version := String.mk (rest.dropWhile Char.isWhitespace)
      match op with
      | .arbitrary => some ⟨op, version, false⟩
      | .eq | .ne =>
        match matchPrefix ['*', '.'] version.data.reverse with
        | some baseRev =>
          let base := String.mk baseRev.reverse
          match parsePep base with
          | some v =>
            if v.pre = none ∧ v.post = none ∧ v.dev = none ∧ v.localSegs = none
            then some ⟨op, base, true⟩ else none
          | none => none
        | none =>
          match parsePep version with
          | some _ => some ⟨op, version, false⟩
          | none => none
      | .compatible =>
        match parsePep version with
        | some v =>
          if 2 ≤ v.release.length ∧ v.localSegs = none
          then some ⟨op, version, false⟩ else none
        | none => none
      | _ =>
        match parsePep version with
        | some v =>
          if v.localSegs = none then some ⟨op, version, false⟩ else none
        | none => none

/-- `SpecifierSet(s)`: split on commas, strip, drop empty chunks, parse each
clause; `none` models `InvalidSpecifier`. -/
def parseSpecifierSet (s : String) : Option (List Specifier) :=
  let chunks := (pySplit ',' s.data).map
    (fun cs => (cs.dropWhile Char.isWhitespace).reverse.dropWhile
      Char.isWhitespace |>.reverse)
  let chunks := chunks.filter (fun cs => ¬ cs.isEmpty)
  let parsed := chunks.map (fun cs => parseSpecifier (String.mk cs))
  if parsed.all Option.isSome then some (parsed.filterMap id) else none

/-- `version in specifier_set` (`SpecifierSet.__contains__`): pre-releases
are excluded unless some clause admits them; otherwise every clause must
contain the version. -/
def specSetContains (specs : List Specifier) (item : PepVersion) : Bool :=
  if pepIsPrerelease item ∧ ¬ specs.any specPrereleases then false
  else specs.all (fun sp => specContains sp item)

/-! ## difflib similarity ratio

The `name` filter leaf computes
`SequenceMatcher(None, name.lower(), p.name.lower()).ratio()`.  The model
below follows `difflib.SequenceMatcher` with `isjunk=None` (so the junk set
is empty and the junk-extension loops of `find_longest_match` never fire)
and the default `autojunk` heuristic, which drops "popular" characters from
the index when the second sequence has at least 200 elements.  `ratio()` is
`2*M/T` where `M` sums the sizes of the matching blocks; the float threshold
comparison of the source is modelled with exact rationals.
-/

/-- Positions of `c` in `b`, ascending (the `b2j` index of the matcher). -/
def indicesOf (c : Char) (b : List Char) : List Nat :=
  (List.range b.length).filter (fun j => b.getD j default = c)

/-- The `autojunk` heuristic: an element is popular when `b` has at least
200 elements and the element occurs more than `len(b) // 100 + 1` times. -/
def bPopular (b : List Char) (c : Char) : Bool :=
  200 ≤ b.length && b.length / 100 + 1 < (indicesOf c b).length

/-- `b2j` after popular elements are dropped. -/
def b2j (b : List Char) (c : Char) : List Nat :=
  if bPopular b c then [] else indicesOf c b

/-- Inner loop of `find_longest_match` for one position `i` of `a`: walk
the ascending index list of `a[i]` in `b`, skipping entries below `blo` and
stopping at `bhi`, building the new `j2len` row and updating the best
block.  The best triple is `(besti, bestj, bestsize)`. -/
def flmInner (oldJ2 : List (Nat × Nat)) (i blo bhi : Nat) :
    List Nat → List (Nat × Nat) → Nat × Nat × Nat →
      List (Nat × Nat) × (Nat × Nat × Nat)
  | [], acc, best => (acc, best)
  | j :: js, acc, best =>
    if j < blo then flmInner oldJ2 i blo bhi js acc best
    else if bhi ≤ j then (acc, best)
    else
      let prev := if j = 0 then 0 else (oldJ2.lookup (j - 1)).getD 0
      let k := prev + 1
      let best' := if best.2.2 < k then (i + 1 - k, j + 1 - k, k) else best
      flmInner oldJ2 i blo bhi js ((j, k) :: acc) best'

/-- Outer loop of `find_longest_match` over the positions of `a`. -/
def flmOuter (a : List Char) (b2jf : Char → List Nat) (blo bhi : Nat) :
    List Nat → List (Nat × Nat) → Nat × Nat × Nat → Nat × Nat × Nat
  | [], _, best => best
  | i :: rest, j2len, best =>
    let (newJ2, best') :=
      flmInner j2len i blo bhi (b2jf (a.getD i default)) [] best
    flmOuter a b2jf blo bhi rest newJ2 best'

/-- Backward extension of the best block over equal, non-junk characters
(the junk set is empty under `isjunk=None`). -/
def extendBack (a b : List Char) (alo blo : Nat) :
    Nat × Nat × Nat → Nat × Nat × Nat
  | (besti, bestj, size) =>
    if h : alo < besti ∧ blo < bestj
        ∧ a.getD (besti - 1) default = b.getD (bestj - 1) default then
      extendBack a b alo blo (besti - 1, bestj - 1, size + 1)
    else (besti, bestj, size)
termination_by x => x.1
decreasing_by
  omega

/-- Forward extension of the best block over equal, non-junk characters. -/
def extendFwd (a b : List Char) (ahi bhi : Nat) :
    Nat × Nat × Nat → Nat × Nat × Nat
  | (besti, bestj, size) =>
    if h : besti + size < ahi ∧ bestj + size < bhi
        ∧ a.getD (besti + size) default = b.getD (bestj + size) default then
      extendFwd a b ahi bhi (besti, bestj, size + 1)
    else (besti, bestj, size)
termination_by x => ahi - x.2.2
decreasing_by
  omega

/-- `SequenceMatcher.find_longest_match` on the window
`a[alo:ahi] × b[blo:bhi]`. -/
def find_longest_match (a b : List Char) (alo ahi blo bhi : Nat) :
    Nat × Nat × Nat :=
  let best := flmOuter a (b2j b) blo bhi (List.range' alo (ahi - alo)) []
    (alo, blo, 0)
  extendFwd a b ahi bhi (extendBack a b alo blo best)

/-- Total size of the matching blocks of `get_matching_blocks` on a window,
which is what `ratio()` sums.  The recursion splits around the longest
match exactly as difflib's queue does; the bounds check mirrors the loop
invariant (the longest match always lies inside the queried window) and
makes termination evident. -/
def matchSum (a b : List Char) (alo ahi blo bhi : Nat) : Nat :=
  match find_longest_match a b alo ahi blo bhi with
  | (i, j, k) =>
    if hk : k = 0 then 0
    else
      if hbounds : alo ≤ i ∧ i + k ≤ ahi ∧ blo ≤ j ∧ j + k ≤ bhi then
        matchSum a b alo i blo j + k + matchSum a b (i + k) ahi (j + k) bhi
      else k
termination_by (ahi - alo) + (bhi - blo)
decreasing_by
  · omega
  · omega

/-- `SequenceMatcher(None, a, b).ratio()` as an exact rational. -/
def sequenceMatcherRatio (a b : List Char) : Rat :=
  let m := matchSum a b 0 a.length 0 b.length
  let length := a.length + b.length
  if length = 0 then 1 else (2 * m : Rat) / (length : Rat)

/-- `PLUGIN_NAME_MATCHING_THREASHOLD` from `tasks/plugin_filter.py`. -/
def PLUGIN_NAME_MATCHING_THREASHOLD : Rat := 0.8

/-! ## Plugin filter evaluator (`tasks/plugin_filter.py`)

Plugins are the `RAMP` rows reduced to the columns the evaluator reads; the
batch `plugin_mapping` is the `dict` from plugin database ids to plugins,
modelled as an association list with the dict's (unique) keys.  A filter
expression is one of the `match` cases of `get_plugins_from_filter`; every
dictionary matching none of the patterns — including the empty filter
`{}` — is `invalidF`.  Evaluation returns an `Except` because the `version`
leaf calls `Version(p.version)`, which raises `InvalidVersion` for an
unparseable stored version and nothing catches it.
-/

/-- The `RAMP` columns read by the filter evaluator.  `tags` holds the tag
name strings of the linked `PluginTag` rows. -/
structure Plugin where
  plugin_id : String
  version : String
  name : String
  plugin_type : String
  tags : List String
  deriving DecidableEq, Repr

/-- Modelled from the spec: the `RAMP.full_id` property is referenced by
`tasks/plugin_filter.py` and the tests but its definition is not among the
provided sources; §4.3 and the glossary fix it as the full id
`name@version`, the identifier and the version joined by `@`. -/
def Plugin.full_id (p : Plugin) : String :=
  p.plugin_id ++ "@" ++ p.version

/-- Python `str.lower()` (ASCII case folding suffices for the embedded
comparisons). -/
def lowerStr (s : String) : String :=
  String.mk (s.data.map Char.toLower)

/-- The tab filter expression grammar: the `match` cases of
`get_plugins_from_filter`; `invalidF` stands for every dictionary matching
no case, which includes the empty filter `{}`. -/
inductive PluginFilter where
  | andF (fs : List PluginFilter)
  | orF (fs : List PluginFilter)
  | notF (f : PluginFilter)
  | tagF (tag : String)
  | versionF (version : String)
  | nameF (name : String)
  | idF (plugin_id : String)
  | typeF (plugin_type : String)
  | invalidF

/-- The dict keys of a batch (`plugin_mapping.keys()`). -/
def keysOf (m : List (Nat × Plugin)) : Finset Nat :=
  (m.map Prod.fst).toFinset

/-- The `id` leaf predicate: `plugin_id == p.full_id` or
`plugin_id.split("@") == p.full_id.split("@")[:-1]`. -/
def idFilterMatches (v : String) (p : Plugin) : Bool :=
  v = p.full_id ∨ pySplit '@' v.data = (pySplit '@' p.full_id.data).dropLast

/-- The `name` leaf predicate:
`SequenceMatcher(None, name.lower(), p.name.lower()).ratio() > 0.8`. -/
def nameFilterMatches (n : String) (p : Plugin) : Bool :=
  PLUGIN_NAME_MATCHING_THREASHOLD
    < sequenceMatcherRatio (lowerStr n).data (lowerStr p.name).data

mutual

/-- `get_plugins_from_filter` from `tasks/plugin_filter.py`: the set of
batch keys whose plugin matches the filter, by recursive set algebra.
`Except.error` is an uncaught `InvalidVersion` from `Version(p.version)`. -/
def get_plugins_from_filter :
    PluginFilter → List (Nat × Plugin) → Except Unit (Finset Nat)
  | .andF fs, m =>
    if fs.isEmpty then .ok ∅
    else
      match evalFilterList fs m with
      | .error e => .error e
      | .ok [] => .ok ∅
      | .ok (s :: ss) => .ok (ss.foldl (· ∩ ·) s)
  | .orF fs, m =>
    if fs.isEmpty then .ok ∅
    else
      match evalFilterList fs m with
      | .error e => .error e
      | .ok [] => .ok ∅
      | .ok (s :: ss) => .ok (ss.foldl (· ∪ ·) s)
  | .notF f, m =>
    match get_plugins_from_filter f m with
    | .error e => .error e
    | .ok s => .ok (keysOf m \ s)
  | .tagF t, m =>
    .ok ((m.filter (fun p => p.2.tags.contains t)).map Prod.fst).toFinset
  | .versionF v, m =>
    match parseSpecifierSet v with
    | none => .ok ∅
    | some specs =>
      if m.all (fun p => (parsePep p.2.version).isSome) then
        .ok ((m.filter (fun p =>
          match parsePep p.2.version with
          | some pv => specSetContains specs pv
          | none => false)).map Prod.fst).toFinset
      else .error ()
  | .nameF n, m =>
    .ok ((m.filter (fun p => nameFilterMatches n p.2)).map Prod.fst).toFinset
  | .idF v, m =>
    .ok ((m.filter (fun p => idFilterMatches v p.2)).map Prod.fst).toFinset
  | .typeF t, m =>
    .ok ((m.filter (fun p =>
      lowerStr p.2.plugin_type = lowerStr t)).map Prod.fst).toFinset
  | .invalidF, _ => .ok ∅

/-- Evaluate a list of sub-filters left to right, propagating the first
uncaught exception (the argument tuple of `set.intersection(*...)` /
`set.union(*...)` is built eagerly). -/
def evalFilterList :
    List PluginFilter → List (Nat × Plugin) → Except Unit (List (Finset Nat))
  | [], _ => .ok []
  | f :: fs, m =>
    match get_plugins_from_filter f m with
    | .error e => .error e
    | .ok s =>
      match evalFilterList fs m with
      | .error e => .error e
      | .ok ss => .ok (s :: ss)

end

deriving instance DecidableEq for Except

/-- A sample plugin for the concrete evaluations. -/
def samplePlugin : Plugin :=
  ⟨"hello-world", "1.0", "Hello World", "processing", ["demo"]⟩

/-- Claim C1 (counterexample): the batch `{1: samplePlugin}` contains plugin
`1`, yet `get_plugins_from_filter({}, batch)` — the empty filter falls
through every `match` case into the invalid-filter branch — returns the
empty set rather than the id of every plugin in the batch. -/
theorem c1_counterexample :
    get_plugins_from_filter .invalidF [(1, samplePlugin)] = .ok ∅
    ∧ (1, samplePlugin) ∈ [(1, samplePlugin)]
    ∧ (1 : Nat) ∉ (∅ : Finset Nat) := by
  refine ⟨rfl, ?_, ?_⟩ <;> simp

/-- Claim C1 (amended): the empty filter `{}` matches no case of
`get_plugins_from_filter`, is logged as an invalid filter, and matches no
plugin: the result is the empty set on every batch. -/
theorem c1_empty_filter_matches_nothing (m : List (Nat × Plugin)) :
    get_plugins_from_filter .invalidF m = .ok ∅ :=
  rfl

/-- Claim C5: for every filter `F` and plugin `P` of a batch, `P` matches
`{"not": F}` iff `P` does not match `F` (whenever `F` evaluates without an
exception, which `not` propagates); no plugin matches `{"and": []}`; no
plugin matches `{"or": []}`; and `{"and": [F]}` evaluates exactly as `F`. -/
theorem c5_filter_algebra_laws (F : PluginFilter) (m : List (Nat × Plugin))
    (s : Finset Nat) (h : get_plugins_from_filter F m = .ok s) :
    get_plugins_from_filter (.notF F) m = .ok (keysOf m \ s)
    ∧ (∀ pid ∈ keysOf m, pid ∈ keysOf m \ s ↔ pid ∉ s)
    ∧ get_plugins_from_filter (.andF []) m = .ok ∅
    ∧ get_plugins_from_filter (.orF []) m = .ok ∅
    ∧ get_plugins_from_filter (.andF [F]) m = .ok s := by
  refine ⟨?_, ?_, rfl, rfl, ?_⟩
  · simp [get_plugins_from_filter, h]
  · intro pid hpid
    simp [Finset.mem_sdiff, hpid]
  · simp [get_plugins_from_filter, evalFilterList, h]

/-- A batch of two plugins for the filter-law witness. -/
def c5Batch : List (Nat × Plugin) :=
  [(1, ⟨"p1", "1.0", "P one", "processing", ["x"]⟩),
   (2, ⟨"p2", "2.0", "P two", "visualization", ["y"]⟩)]

/-- Witness for `c5_filter_algebra_laws` at the filter `{"tag": "x"}` on
`c5Batch`, whose evaluation succeeds with `{1}`. -/
theorem c5_filter_algebra_laws_witness :
    get_plugins_from_filter (.notF (.tagF ("x"))) c5Batch = .ok (keysOf c5Batch \ {1})
    ∧ (∀ pid ∈ keysOf c5Batch, pid ∈ keysOf c5Batch \ {1} ↔ pid ∉ ({1} : Finset Nat))
    ∧ get_plugins_from_filter (.andF []) c5Batch = .ok ∅
    ∧ get_plugins_from_filter (.orF []) c5Batch = .ok ∅
    ∧ get_plugins_from_filter (.andF [.tagF ("x")]) c5Batch = .ok {1} :=
  c5_filter_algebra_laws (.tagF ("x")) c5Batch {1} (by decide)

/-! ### Split/join facts used for the id-filter claim -/

theorem pySplit_sep_head (sep : Char) (t : List Char) :
    pySplit sep (sep :: t) = [] :: pySplit sep t := by
  unfold pySplit
  rw [pySplitAux_sep_cons]
  simp [pySplit]

theorem pySplitAux_eq (sep : Char) (s : List Char) (acc : List Char) :
    pySplitAux sep s acc
      = (acc.reverse ++ (pySplit sep s).headI) :: (pySplit sep s).tail := by
  induction s generalizing acc with
  | nil => simp [pySplitAux, pySplit]
  | cons c t ih =>
    by_cases hc : c = sep
    · rw [hc, pySplitAux_sep_cons, pySplit_sep_head]
      simp
    · have h1 : pySplitAux sep (c :: t) acc = pySplitAux sep t (c :: acc) := by
        simp [pySplitAux, hc]
      have h2 : pySplit sep (c :: t) = pySplitAux sep t [c] := by
        simp [pySplit, pySplitAux, hc]
      rw [h1, ih (c :: acc), h2, ih [c]]
      simp

theorem pySplit_cons_ne (sep c : Char) (t : List Char) (hc : ¬ c = sep) :
    pySplit sep (c :: t)
      = (c :: (pySplit sep t).headI) :: (pySplit sep t).tail := by
  have h2 : pySplit sep (c :: t) = pySplitAux sep t [c] := by
    simp [pySplit, pySplitAux, hc]
  rw [h2, pySplitAux_eq]
  simp

/-- Joining the chunks of a split restores the original list. -/
theorem pyJoin_pySplit (sep : Char) (s : List Char) :
    pyJoin sep (pySplit sep s) = s := by
  induction s with
  | nil => simp [pySplit, pySplitAux, pyJoin]
  | cons c t ih =>
    by_cases hc : c = sep
    · rw [hc, pySplit_sep_head]
      cases hpt : pySplit sep t with
      | nil => exact absurd hpt (pySplit_ne_nil sep t)
      | cons u us =>
        rw [hpt] at ih
        simp [pyJoin, ← ih]
    · rw [pySplit_cons_ne sep c t hc]
      cases hpt : pySplit sep t with
      | nil => exact absurd hpt (pySplit_ne_nil sep t)
      | cons u us =>
        rw [hpt] at ih
        cases us with
        | nil => simpa [pyJoin] using congrArg (c :: ·) ih
        | cons v vs =>
          simp only [pyJoin, List.headI, List.tail_cons] at ih ⊢
          rw [← ih]
          simp

/-- A list containing the separator splits into at least two chunks. -/
theorem pySplit_length_two_le (sep : Char) (s : List Char) (h : sep ∈ s) :
    2 ≤ (pySplit sep s).length := by
  induction s with
  | nil => cases h
  | cons c t ih =>
    by_cases hc : c = sep
    · rw [hc, pySplit_sep_head]
      have := pySplit_ne_nil sep t
      simp only [List.length_cons]
      cases hpt : pySplit sep t with
      | nil => exact absurd hpt this
      | cons u us => simp [hpt]
    · have hmem : sep ∈ t := by
        rcases List.mem_cons.mp h with h1 | h2
        · exact absurd h1.symm hc
        · exact h2
      rw [pySplit_cons_ne sep c t hc]
      have h2 := ih hmem
      simp only [List.length_cons]
      have : 1 ≤ (pySplit sep t).tail.length := by
        have := List.length_tail (pySplit sep t)
        omega
      omega

/-- Membership in the result set of a leaf filter case. -/
theorem mem_leaf_result (m : List (Nat × Plugin)) (pred : Plugin → Bool)
    (pid : Nat) :
    pid ∈ ((m.filter (fun q => pred q.2)).map Prod.fst).toFinset
      ↔ ∃ p, (pid, p) ∈ m ∧ pred p = true := by
  rw [List.mem_toFinset, List.mem_map]
  constructor
  · rintro ⟨⟨a, b⟩, hq, rfl⟩
    rw [List.mem_filter] at hq
    exact ⟨b, hq.1, hq.2⟩
  · rintro ⟨p, hm, hp⟩
    exact ⟨(pid, p), List.mem_filter.mpr ⟨hm, hp⟩, rfl⟩

/-- From the spec's wording for claim comparison: the plugin identifier as
"the full id without the trailing version segment", i.e.
`"@".join(full_id.split("@")[:-1])` (the comparison id of the repository's
own tests). -/
def identifierOf (p : Plugin) : String :=
  String.mk (pyJoin '@' ((pySplit '@' p.full_id.data).dropLast))

theorem at_string_data : ("@" : String).data = ['@'] := by
  decide

theorem full_id_data (p : Plugin) :
    p.full_id.data = p.plugin_id.data ++ '@' :: p.version.data := by
  show (p.plugin_id ++ "@" ++ p.version).data = _
  rw [String.data_append, String.data_append, at_string_data]
  simp

theorem at_mem_full_id (p : Plugin) : '@' ∈ p.full_id.data := by
  rw [full_id_data]
  simp

/-- Claim C3 (counterexample): for the filter value `"x@y"` and a plugin
whose stored version is `"y@a@b"`, the full id is literally
`"x@y" + "@" + "a@b"` — of the claimed shape `x@y@<any version>` with
version `a@b` — yet the id filter does not match, because the suffix
comparison drops only the part after the *last* `@`. -/
theorem c3_counterexample :
    (Plugin.full_id ⟨"x", "y@a@b", "X", "processing", []⟩
        = "x@y" ++ "@" ++ "a@b")
    ∧ idFilterMatches ("x@y") ⟨"x", "y@a@b", "X", "processing", []⟩ = false
    ∧ get_plugins_from_filter (.idF ("x@y"))
        [(7, ⟨"x", "y@a@b", "X", "processing", []⟩)] = .ok ∅ := by
  refine ⟨rfl, by decide, by decide⟩

/-- Claim C3 (amended): for `@`-free `x` and `y`, the filter `{"id": "x@y"}`
matches a plugin iff its full id is `x@y` or `x@y@w` for a version `w` that
itself contains no `@`; the filter `{"id": "x"}` with bare `@`-free `x`
matches iff the plugin's identifier — the full id without the trailing
version segment — equals `x`; and a batch key is in the evaluator's result
for `{"id": v}` iff its plugin satisfies the id predicate. -/
theorem c3_id_filter_suffix_rule (x y : String) (p : Plugin)
    (hx : '@' ∉ x.data) (hy : '@' ∉ y.data) :
    (idFilterMatches (x ++ "@" ++ y) p = true ↔
      p.full_id = x ++ "@" ++ y
        ∨ ∃ w : String, '@' ∉ w.data
            ∧ p.full_id = x ++ "@" ++ y ++ "@" ++ w)
    ∧ (idFilterMatches x p = true ↔ identifierOf p = x)
    ∧ (∀ (v : String) (m : List (Nat × Plugin)) (pid : Nat) (s : Finset Nat),
        get_plugins_from_filter (.idF v) m = .ok s →
          (pid ∈ s ↔ ∃ q, (pid, q) ∈ m ∧ idFilterMatches v q = true)) := by
  have hv_data : (x ++ "@" ++ y).data = x.data ++ '@' :: y.data := by
    rw [String.data_append, String.data_append, at_string_data]
    simp
  have hsplit_v : pySplit '@' (x ++ "@" ++ y).data = [x.data, y.data] := by
    rw [hv_data, pySplit_append_sep '@' _ _ hx, pySplit_no_sep '@' _ hy]
  refine ⟨?_, ?_, ?_⟩
  · -- the `x@y` form
    simp only [idFilterMatches, decide_eq_true_eq]
    constructor
    · rintro (h1 | h2)
      · exact Or.inl h1.symm
      · -- the split comparison matched: the full id has exactly three
        -- chunks `x`, `y`, `w`
        right
        have hLne := pySplit_ne_nil '@' p.full_id.data
        set L := pySplit '@' p.full_id.data with hL
        have hdecomp : L.dropLast ++ [L.getLast hLne] = L :=
          List.dropLast_append_getLast hLne
        rw [hsplit_v] at h2
        refine ⟨String.mk (L.getLast hLne), ?_, ?_⟩
        · exact pySplit_chunks_no_sep '@' p.full_id.data _
            (hL ▸ List.getLast_mem hLne)
        · apply String.ext
          have hjoin := pyJoin_pySplit '@' p.full_id.data
          rw [← hL] at hjoin
          rw [← hdecomp, ← h2] at hjoin
          rw [String.data_append, String.data_append, hv_data]
          simp only [pyJoin] at hjoin
          rw [← hjoin]
          simp
    · rintro (h1 | ⟨w, hw, hfull⟩)
      · exact Or.inl h1.symm
      · right
        rw [hsplit_v, hfull]
        have : (x ++ "@" ++ y ++ "@" ++ w).data
            = x.data ++ '@' :: (y.data ++ '@' :: w.data) := by
          rw [String.data_append, String.data_append, hv_data]
          simp
        rw [this, pySplit_append_sep '@' _ _ hx,
          pySplit_append_sep '@' _ _ hy, pySplit_no_sep '@' _ hw]
        rfl
  · -- the bare-name form
    simp only [idFilterMatches, decide_eq_true_eq]
    have hLne := pySplit_ne_nil '@' p.full_id.data
    have hlen : 2 ≤ (pySplit '@' p.full_id.data).length :=
      pySplit_length_two_le '@' _ (at_mem_full_id p)
    constructor
    · rintro (h1 | h2)
      · exfalso
        apply hx
        rw [h1]
        exact at_mem_full_id p
      · rw [pySplit_no_sep '@' _ hx] at h2
        unfold identifierOf
        rw [← h2]
        simp only [pyJoin]
    · intro hid
      right
      rw [pySplit_no_sep '@' _ hx]
      unfold identifierOf at hid
      have hdata : pyJoin '@' ((pySplit '@' p.full_id.data).dropLast) = x.data := by
        have := congrArg String.data hid
        simpa using this
      have hdllen : 1 ≤ ((pySplit '@' p.full_id.data).dropLast).length := by
        rw [List.length_dropLast]
        omega
      cases hdl : (pySplit '@' p.full_id.data).dropLast with
      | nil => rw [hdl] at hdllen; simp at hdllen
      | cons u us =>
        cases us with
        | nil =>
          rw [hdl] at hdata
          simp only [pyJoin] at hdata
          rw [hdata]
        | cons u2 us2 =>
          exfalso
          apply hx
          rw [hdl] at hdata
          rw [← hdata]
          simp only [pyJoin]
          simp
  · -- evaluator membership
    intro v m pid s hs
    simp only [get_plugins_from_filter] at hs
    cases hs
    exact mem_leaf_result m (fun q => idFilterMatches v q) pid

/-- Witness for `c3_id_filter_suffix_rule` at `x = "hello-world"`,
`y = "1.0"` and `samplePlugin` (whose full id is `hello-world@1.0`). -/
theorem c3_id_filter_suffix_rule_witness :
    (idFilterMatches ("hello-world" ++ "@" ++ "1.0") samplePlugin = true ↔
      samplePlugin.full_id = "hello-world" ++ "@" ++ "1.0"
        ∨ ∃ w : String, '@' ∉ w.data
            ∧ samplePlugin.full_id = "hello-world" ++ "@" ++ "1.0" ++ "@" ++ w)
    ∧ (idFilterMatches ("hello-world") samplePlugin = true ↔
        identifierOf samplePlugin = "hello-world")
    ∧ (∀ (v : String) (m : List (Nat × Plugin)) (pid : Nat) (s : Finset Nat),
        get_plugins_from_filter (.idF v) m = .ok s →
          (pid ∈ s ↔ ∃ q, (pid, q) ∈ m ∧ idFilterMatches v q = true)) :=
  c3_id_filter_suffix_rule ("hello-world") ("1.0") samplePlugin
    (by decide) (by decide)

/-! ## Sort-version derivation (`db/models/plugins.py`,
`get_version_sorting_string`)

The function parses the version; `LegacyVersion`s (parse failures) fall back
to the raw string, otherwise the key is
`f"{epoch:02}!{release}{''.join(extra)}"` with each release segment
zero-padded to width 4 and canonical pre/post/dev/local suffixes.
-/

/-- The decimal digit character for `n < 10`. -/
def digitChar (n : Nat) : Char := Char.ofNat (48 + n)

/-- Worker for `digitsNat`, structurally recursive on a fuel argument
(`n` itself is ample fuel since `n / 10 < n` for `n ≥ 10`). -/
def digitsNatGo : Nat → Nat → List Nat
  | 0, n => [n % 10]
  | fuel + 1, n => if n < 10 then [n] else digitsNatGo fuel (n / 10) ++ [n % 10]

/-- The decimal digits of `n`, most significant first (`str(n)`). -/
def digitsNat (n : Nat) : List Nat :=
  digitsNatGo n n

theorem digitsNatGo_fuel {f1 f2 n : Nat} (h1 : n ≤ f1) (h2 : n ≤ f2) :
    digitsNatGo f1 n = digitsNatGo f2 n := by
  induction f1 generalizing f2 n with
  | zero =>
    have hn : n = 0 := by omega
    subst hn
    cases f2 with
    | zero => rfl
    | succ k => simp [digitsNatGo]
  | succ f1 ih =>
    cases f2 with
    | zero =>
      have hn : n = 0 := by omega
      subst hn
      simp [digitsNatGo]
    | succ k =>
      simp only [digitsNatGo]
      split
      · rfl
      · rename_i hge
        rw [@ih k (n / 10) (by omega) (by omega)]

/-- The recursive unfolding of `digitsNat`. -/
theorem digitsNat_eq (n : Nat) :
    digitsNat n = if n < 10 then [n] else digitsNat (n / 10) ++ [n % 10] := by
  unfold digitsNat
  cases hn : n with
  | zero => simp [digitsNatGo]
  | succ m =>
    simp only [digitsNatGo]
    split
    · rfl
    · rename_i hge
      rw [@digitsNatGo_fuel m ((m + 1) / 10) ((m + 1) / 10) (by omega)
        (by omega)]

/-- Decimal rendering of a natural number as characters. -/
def decimalDigits (n : Nat) : List Char :=
  (digitsNat n).map digitChar

/-- Zero padding to width `w` (`f"{n:0w}"` leaves longer renderings
untouched). -/
def padZeros (w : Nat) (ds : List Char) : List Char :=
  List.replicate (w - ds.length) '0' ++ ds

/-- The release component of the sort key:
`".".join(f"{n:04}" for n in parsed.release)`. -/
def releaseKey (release : List Nat) : List Char :=
  pyJoin '.' (release.map (fun n => padZeros 4 (decimalDigits n)))

/-- The `extra` suffixes appended to the sort key: the pre pair joined
bare, `.post{n}`, `.dev{n}` and `+{local}`. -/
def extraChars (p : PepVersion) : List Char :=
  (match p.pre with
   | some (l, n) => l.data ++ decimalDigits n
   | none => [])
  ++ (match p.post with
      | some n => '.' :: 'p' :: 'o' :: 's' :: 't' :: decimalDigits n
      | none => [])
  ++ (match p.dev with
      | some n => '.' :: 'd' :: 'e' :: 'v' :: decimalDigits n
      | none => [])
  ++ (match p.localSegs with
      | some segs =>
        '+' :: pyJoin '.' (segs.map (fun s => match s with
          | .inl n => decimalDigits n
          | .inr str => str.data))
      | none => [])

/-- The characters of the sort key of a parsed version:
`f"{parsed.epoch:02}!{release}{''.join(extra)}"`. -/
def sortKeyChars (p : PepVersion) : List Char :=
  padZeros 2 (decimalDigits p.epoch) ++ '!' :: (releaseKey p.release ++ extraChars p)

/-- `get_version_sorting_string` from `db/models/plugins.py`. -/
def get_version_sorting_string (version : String) : String :=
  match parsePep version with
  | none => version
  | some p => String.mk (sortKeyChars p)

/-! ### Digit-string ordering facts -/

theorem digitsNat_ne_nil (n : Nat) : digitsNat n ≠ [] := by
  rw [digitsNat_eq]
  split
  · simp
  · simp

theorem digitsNat_all_le9 (n : Nat) : ∀ k ∈ digitsNat n, k ≤ 9 := by
  induction n using Nat.strong_induction_on with
  | _ n ih =>
    rw [digitsNat_eq]
    split
    · intro k hk
      simp only [List.mem_singleton] at hk
      omega
    · intro k hk
      rename_i h
      rcases List.mem_append.mp hk with h1 | h2
      · exact ih (n / 10) (by omega) k h1
      · simp only [List.mem_singleton] at h2
        omega

theorem digitsNat_length_le {n w : Nat} (hw : 1 ≤ w) (hn : n < 10 ^ w) :
    (digitsNat n).length ≤ w := by
  induction n using Nat.strong_induction_on generalizing w with
  | _ n ih =>
    rw [digitsNat_eq]
    split
    · simpa using hw
    · rename_i h
      rw [List.length_append]
      simp only [List.length_singleton]
      have hw2 : 2 ≤ w := by
        by_contra hcon
        have : w = 1 := by omega
        subst this
        simp at hn
        omega
      have hdiv : n / 10 < 10 ^ (w - 1) := by
        have : 10 ^ w = 10 ^ (w - 1) * 10 := by
          conv_lhs => rw [show w = (w - 1) + 1 by omega]
          rw [pow_succ]
        omega
      have := @ih (n / 10) (by omega) (w - 1) (by omega) hdiv
      omega

/-- The value of a digit list, most significant first. -/
def valNat (ks : List Nat) : Nat :=
  ks.foldl (fun a k => 10 * a + k) 0

theorem valNat_foldl_acc (ks : List Nat) (a : Nat) :
    ks.foldl (fun x k => 10 * x + k) a = a * 10 ^ ks.length + valNat ks := by
  induction ks generalizing a with
  | nil => simp [valNat]
  | cons k ks ih =>
    simp only [List.foldl_cons, List.length_cons, valNat, Nat.mul_zero,
      Nat.zero_add]
    rw [ih (10 * a + k), ih k]
    ring

theorem valNat_cons (k : Nat) (ks : List Nat) :
    valNat (k :: ks) = k * 10 ^ ks.length + valNat ks := by
  simp only [valNat, List.foldl_cons]
  rw [valNat_foldl_acc]
  ring_nf
  simp [valNat]

theorem valNat_lt_pow (ks : List Nat) (h : ∀ k ∈ ks, k ≤ 9) :
    valNat ks < 10 ^ ks.length := by
  induction ks with
  | nil => simp [valNat]
  | cons k ks ih =>
    rw [valNat_cons]
    have hk : k ≤ 9 := h k (by simp)
    have hks := ih (fun x hx => h x (by simp [hx]))
    simp only [List.length_cons, pow_succ]
    nlinarith

theorem valNat_digitsNat (n : Nat) : valNat (digitsNat n) = n := by
  induction n using Nat.strong_induction_on with
  | _ n ih =>
    rw [digitsNat_eq]
    split
    · simp [valNat]
    · rename_i h
      have := ih (n / 10) (by omega)
      simp only [valNat, List.foldl_append, List.foldl_cons, List.foldl_nil]
      show 10 * ((digitsNat (n / 10)).foldl (fun a k => 10 * a + k) 0) + n % 10 = n
      show 10 * valNat (digitsNat (n / 10)) + n % 10 = n
      rw [this]
      omega

theorem valNat_replicate_zero (m : Nat) (ks : List Nat) :
    valNat (List.replicate m 0 ++ ks) = valNat ks := by
  induction m with
  | zero => simp
  | succ m ih =>
    simp only [List.replicate_succ, List.cons_append, valNat, List.foldl_cons]
    simpa [valNat] using ih

theorem natList_lt_of_val_lt :
    ∀ (ks ls : List Nat), ks.length = ls.length → (∀ k ∈ ks, k ≤ 9) →
      (∀ l ∈ ls, l ≤ 9) → valNat ks < valNat ls → List.lt ks ls := by
  intro ks
  induction ks with
  | nil =>
    intro ls hlen _ _ hv
    cases ls with
    | nil => simp [valNat] at hv
    | cons l ls => simp at hlen
  | cons k ks ih =>
    intro ls hlen hk9 hl9 hv
    cases ls with
    | nil => simp at hlen
    | cons l ls =>
      simp only [List.length_cons, Nat.add_right_cancel_iff] at hlen
      rw [valNat_cons, valNat_cons, hlen] at hv
      rcases Nat.lt_trichotomy k l with h | h | h
      · exact List.lt.head _ _ h
      · subst h
        have htail : valNat ks < valNat ls := by omega
        exact List.lt.tail (lt_irrefl k) (lt_irrefl k)
          (ih ls hlen (fun x hx => hk9 x (by simp [hx]))
            (fun x hx => hl9 x (by simp [hx])) htail)
      · exfalso
        have hb1 : valNat ks < 10 ^ ls.length := by
          rw [← hlen]
          exact valNat_lt_pow ks (fun x hx => hk9 x (by simp [hx]))
        have hb2 : valNat ls < 10 ^ ls.length :=
          valNat_lt_pow ls (fun x hx => hl9 x (by simp [hx]))
        nlinarith

theorem digitChar_lt_iff {a b : Nat} (ha : a ≤ 9) (hb : b ≤ 9) :
    digitChar a < digitChar b ↔ a < b := by
  interval_cases a <;> interval_cases b <;> simp <;> decide

theorem charList_lt_of_natList_lt :
    ∀ {ks ls : List Nat}, (∀ k ∈ ks, k ≤ 9) → (∀ l ∈ ls, l ≤ 9) →
      List.lt ks ls → List.lt (ks.map digitChar) (ls.map digitChar) := by
  intro ks ls hk9 hl9 h
  induction h with
  | nil b bs => exact List.lt.nil _ _
  | head as bs h =>
    rename_i a b
    exact List.lt.head _ _ ((digitChar_lt_iff (hk9 a (by simp))
      (hl9 b (by simp))).mpr h)
  | tail hab hba _ ih =>
    rename_i a as b bs _
    refine List.lt.tail ?_ ?_ (ih (fun x hx => hk9 x (by simp [hx]))
      (fun x hx => hl9 x (by simp [hx])))
    · exact fun hc => hab ((digitChar_lt_iff (hk9 a (by simp))
        (hl9 b (by simp))).mp hc)
    · exact fun hc => hba ((digitChar_lt_iff (hl9 b (by simp))
        (hk9 a (by simp))).mp hc)

theorem decimalDigits_length_le {n w : Nat} (hw : 1 ≤ w) (hn : n < 10 ^ w) :
    (decimalDigits n).length ≤ w := by
  simpa [decimalDigits] using digitsNat_length_le hw hn

/-- A zero-padded decimal rendering as the rendering of a zero-padded digit
list. -/
theorem padZeros_decimalDigits (w n : Nat) :
    padZeros w (decimalDigits n)
      = (List.replicate (w - (digitsNat n).length) 0 ++ digitsNat n).map
          digitChar := by
  simp only [padZeros, decimalDigits, List.map_append, List.map_replicate,
    List.length_map]
  have : digitChar 0 = '0' := by decide
  rw [this]

theorem padZeros_length {w : Nat} {ds : List Char} (h : ds.length ≤ w) :
    (padZeros w ds).length = w := by
  simp [padZeros]
  omega

/-- Zero-padded decimal renderings of `m < n` compare lexicographically. -/
theorem padZeros_decimal_lt {w m n : Nat} (hw : 1 ≤ w) (hmn : m < n)
    (hn : n < 10 ^ w) :
    List.lt (padZeros w (decimalDigits m)) (padZeros w (decimalDigits n)) := by
  rw [padZeros_decimalDigits, padZeros_decimalDigits]
  have hm : m < 10 ^ w := lt_trans hmn hn
  have hlenm := digitsNat_length_le hw hm
  have hlenn := digitsNat_length_le hw hn
  refine charList_lt_of_natList_lt ?_ ?_ ?_
  · intro k hk
    rcases List.mem_append.mp hk with h1 | h2
    · simp only [List.mem_replicate] at h1
      omega
    · exact digitsNat_all_le9 m k h2
  · intro k hk
    rcases List.mem_append.mp hk with h1 | h2
    · simp only [List.mem_replicate] at h1
      omega
    · exact digitsNat_all_le9 n k h2
  · refine natList_lt_of_val_lt _ _ ?_ ?_ ?_ ?_
    · simp only [List.length_append, List.length_replicate]
      omega
    · intro k hk
      rcases List.mem_append.mp hk with h1 | h2
      · simp only [List.mem_replicate] at h1
        omega
      · exact digitsNat_all_le9 m k h2
    · intro k hk
      rcases List.mem_append.mp hk with h1 | h2
      · simp only [List.mem_replicate] at h1
        omega
      · exact digitsNat_all_le9 n k h2
    · rw [valNat_replicate_zero, valNat_replicate_zero,
        valNat_digitsNat, valNat_digitsNat]
      exact hmn

theorem charlist_lt_append_left (x : List Char) {u v : List Char}
    (h : List.lt u v) : List.lt (x ++ u) (x ++ v) := by
  induction x with
  | nil => simpa using h
  | cons c cs ih => exact List.lt.tail (lt_irrefl c) (lt_irrefl c) ih

theorem charlist_lt_strict_prefix (x : List Char) {y : List Char}
    (hy : y ≠ []) : List.lt x (x ++ y) := by
  induction x with
  | nil =>
    cases y with
    | nil => exact absurd rfl hy
    | cons c cs => exact List.lt.nil _ _
  | cons c cs ih => exact List.lt.tail (lt_irrefl c) (lt_irrefl c) ih

theorem charlist_lt_head_append :
    ∀ {a b : List Char}, a.length = b.length → List.lt a b →
      ∀ (u v : List Char), List.lt (a ++ u) (b ++ v) := by
  intro a
  induction a with
  | nil =>
    intro b hlen h u v
    cases h with
    | nil c cs => simp at hlen
  | cons c cs ih =>
    intro b hlen h u v
    cases h with
    | head as bs hlt => exact List.lt.head _ _ hlt
    | tail hab hba htl =>
      rename_i b' bs
      simp only [List.length_cons, Nat.add_right_cancel_iff] at hlen
      exact List.lt.tail hab hba (ih hlen htl u v)

theorem pyJoin_cons (sep : Char) (x : List Char) (xs : List (List Char)) :
    pyJoin sep (x :: xs)
      = x ++ (if xs.isEmpty then [] else sep :: pyJoin sep xs) := by
  cases xs <;> simp [pyJoin]

theorem decimalDigits_ne_nil (n : Nat) : decimalDigits n ≠ [] := by
  simp [decimalDigits, digitsNat_ne_nil n]

theorem padZeros_ne_nil (w : Nat) {ds : List Char} (h : ds ≠ []) :
    padZeros w ds ≠ [] := by
  simp [padZeros, h]

theorem releaseKey_cons (a : Nat) (as : List Nat) :
    releaseKey (a :: as)
      = padZeros 4 (decimalDigits a)
          ++ (if as.isEmpty then [] else '.' :: releaseKey as) := by
  simp only [releaseKey, List.map_cons, pyJoin_cons]
  cases as <;> simp

theorem releaseKey_single (a : Nat) :
    releaseKey [a] = padZeros 4 (decimalDigits a) := by
  simp [releaseKey, pyJoin]

theorem releaseKey_cons₂ (a x : Nat) (xs : List Nat) :
    releaseKey (a :: x :: xs)
      = padZeros 4 (decimalDigits a) ++ '.' :: releaseKey (x :: xs) := by
  simp [releaseKey, pyJoin]

theorem cmpListNat_nil_right (x : List Nat) : cmpListNat x [] ≠ .lt := by
  cases x <;> simp [cmpListNat]

theorem releaseCanon_cons (a : Nat) (as : List Nat) :
    releaseCanon (a :: as)
      = match releaseCanon as with
        | [] => if a = 0 then [] else [a]
        | rest => a :: rest := rfl

theorem releaseCanon_ne_nil_of_ne {r : List Nat} (h : releaseCanon r ≠ []) :
    r ≠ [] := by
  intro hr
  subst hr
  exact h rfl

/-- The heart of the amended sort-version claim: strictly smaller canonical
releases (all segments below 10000) produce lexicographically strictly
smaller release key strings. -/
theorem releaseKey_lt :
    ∀ (r1 : List Nat) (r2 : List Nat), (∀ n ∈ r1, n < 10000) →
      (∀ n ∈ r2, n < 10000) →
      cmpListNat (releaseCanon r1) (releaseCanon r2) = .lt →
      List.lt (releaseKey r1) (releaseKey r2) := by
  intro r1
  induction r1 with
  | nil =>
    intro r2 _ _ hlt
    cases r2 with
    | nil => simp [releaseCanon, cmpListNat] at hlt
    | cons b bs =>
      have hpad := padZeros_ne_nil 4 (decimalDigits_ne_nil b)
      rw [releaseKey_cons]
      show List.lt (releaseKey []) _
      cases hp : padZeros 4 (decimalDigits b) with
      | nil => exact absurd hp hpad
      | cons c cs =>
        simp only [releaseKey, List.map_nil, pyJoin, List.cons_append]
        exact List.lt.nil _ _
  | cons a as ih =>
    intro r2 h1 h2 hlt
    cases r2 with
    | nil =>
      exfalso
      rw [releaseCanon_cons] at hlt
      cases hca : releaseCanon as with
      | nil =>
        rw [hca] at hlt
        by_cases ha0 : a = 0 <;> simp [ha0, releaseCanon, cmpListNat] at hlt
      | cons c cs =>
        rw [hca] at hlt
        simp [releaseCanon, cmpListNat] at hlt
    | cons b bs =>
      have ha4 : a < 10000 := h1 a (by simp)
      have hb4 : b < 10000 := h2 b (by simp)
      rcases Nat.lt_trichotomy a b with hab | hab | hab
      · -- head decides: different padded digit strings
        rw [releaseKey_cons, releaseKey_cons]
        refine charlist_lt_head_append ?_ ?_ _ _
        · rw [padZeros_length (decimalDigits_length_le (by omega) ha4),
            padZeros_length (decimalDigits_length_le (by omega) hb4)]
        · exact padZeros_decimal_lt (by omega) hab hb4
      · -- equal heads: recurse into the tails
        subst hab
        have htail : cmpListNat (releaseCanon as) (releaseCanon bs) = .lt := by
          rw [releaseCanon_cons, releaseCanon_cons] at hlt
          cases hca : releaseCanon as with
          | nil =>
            rw [hca] at hlt
            cases hcb : releaseCanon bs with
            | nil =>
              exfalso
              rw [hcb] at hlt
              by_cases ha0 : a = 0 <;>
                simp [ha0, cmpListNat, Nat.compare_eq_eq.mpr rfl,
                  Ordering.then] at hlt
            | cons c cs => simp [cmpListNat]
          | cons c cs =>
            rw [hca] at hlt
            cases hcb : releaseCanon bs with
            | nil =>
              exfalso
              rw [hcb] at hlt
              by_cases ha0 : a = 0 <;>
                simp [ha0, cmpListNat, Nat.compare_eq_eq.mpr rfl,
                  Ordering.then] at hlt
            | cons d ds =>
              rw [hcb] at hlt
              simp only [cmpListNat, Nat.compare_eq_eq.mpr rfl,
                Ordering.then] at hlt ⊢
              exact hlt
        cases as with
        | nil =>
          -- left side is a single segment; right side strictly extends it
          have hbsne : bs ≠ [] := by
            intro hc
            subst hc
            exact cmpListNat_nil_right _ htail
          cases bs with
          | nil => exact absurd rfl hbsne
          | cons y ys =>
            rw [releaseKey_single, releaseKey_cons₂]
            exact charlist_lt_strict_prefix _ (by simp)
        | cons x xs =>
          cases bs with
          | nil => exact absurd htail (cmpListNat_nil_right _)
          | cons y ys =>
            rw [releaseKey_cons₂, releaseKey_cons₂]
            refine charlist_lt_append_left _ ?_
            refine List.lt.tail (lt_irrefl '.') (lt_irrefl '.') ?_
            exact ih (y :: ys) (fun n hn => h1 n (by simp [hn]))
              (fun n hn => h2 n (by simp [hn])) htail
      · -- a > b is incompatible with the strict comparison
        exfalso
        rw [releaseCanon_cons, releaseCanon_cons] at hlt
        have ha0 : ¬ a = 0 := by omega
        cases hca : releaseCanon as with
        | nil =>
          rw [hca] at hlt
          cases hcb : releaseCanon bs with
          | nil =>
            rw [hcb] at hlt
            by_cases hb0 : b = 0 <;>
              simp [ha0, hb0, cmpListNat, Nat.compare_eq_gt.mpr hab,
                Ordering.then] at hlt
          | cons d ds =>
            rw [hcb] at hlt
            simp [ha0, cmpListNat, Nat.compare_eq_gt.mpr hab,
              Ordering.then] at hlt
        | cons c cs =>
          rw [hca] at hlt
          cases hcb : releaseCanon bs with
          | nil =>
            rw [hcb] at hlt
            by_cases hb0 : b = 0 <;>
              simp [ha0, hb0, cmpListNat, Nat.compare_eq_gt.mpr hab,
                Ordering.then] at hlt
          | cons d ds =>
            rw [hcb] at hlt
            simp [cmpListNat, Nat.compare_eq_gt.mpr hab, Ordering.then] at hlt

theorem Ordering_then_eq (o : Ordering) : o.then .eq = o := by
  cases o <;> rfl

/-- For versions without pre/post/dev/local parts the `_cmpkey` comparison
reduces to epoch and canonical release. -/
theorem pepCompare_pure (v1 v2 : PepVersion)
    (h1 : v1.pre = none ∧ v1.post = none ∧ v1.dev = none ∧ v1.localSegs = none)
    (h2 : v2.pre = none ∧ v2.post = none ∧ v2.dev = none ∧ v2.localSegs = none) :
    pepCompare v1 v2
      = (compare v1.epoch v2.epoch).then
          (cmpListNat (releaseCanon v1.release) (releaseCanon v2.release)) := by
  obtain ⟨ha1, hb1, hc1, hd1⟩ := h1
  obtain ⟨ha2, hb2, hc2, hd2⟩ := h2
  have h22 : compare (2 : Nat) 2 = Ordering.eq := by decide
  simp [pepCompare, cmpPreKey, preRank, ha1, hb1, hc1, hd1, ha2, hb2, hc2,
    hd2, cmpPost, cmpDev, cmpLocal, Ordering_then_eq, h22]

theorem extraChars_pure (v : PepVersion)
    (h : v.pre = none ∧ v.post = none ∧ v.dev = none ∧ v.localSegs = none) :
    extraChars v = [] := by
  obtain ⟨ha, hb, hc, hd⟩ := h
  simp [extraChars, ha, hb, hc, hd]

/-- Key comparison for pure epoch/release versions with epoch below 100 and
release segments below 10000. -/
theorem sortKeyChars_lt_pure (v1 v2 : PepVersion)
    (h1 : v1.pre = none ∧ v1.post = none ∧ v1.dev = none ∧ v1.localSegs = none)
    (h2 : v2.pre = none ∧ v2.post = none ∧ v2.dev = none ∧ v2.localSegs = none)
    (he1 : v1.epoch < 100) (he2 : v2.epoch < 100)
    (hr1 : ∀ n ∈ v1.release, n < 10000) (hr2 : ∀ n ∈ v2.release, n < 10000)
    (hlt : pepLt v1 v2 = true) :
    List.lt (sortKeyChars v1) (sortKeyChars v2) := by
  have hltc : pepCompare v1 v2 = .lt := by
    unfold pepLt at hlt
    cases hpc : pepCompare v1 v2
    case lt => rfl
    case eq => rw [hpc] at hlt; exact absurd hlt (by decide)
    case gt => rw [hpc] at hlt; exact absurd hlt (by decide)
  rw [pepCompare_pure v1 v2 h1 h2] at hltc
  unfold sortKeyChars
  rw [extraChars_pure v1 h1, extraChars_pure v2 h2, List.append_nil,
    List.append_nil]
  rcases Nat.lt_trichotomy v1.epoch v2.epoch with he | he | he
  · refine charlist_lt_head_append ?_ ?_ _ _
    · rw [padZeros_length (decimalDigits_length_le (by omega) he1),
        padZeros_length (decimalDigits_length_le (by omega) he2)]
    · exact padZeros_decimal_lt (by omega) he he2
  · rw [he]
    rw [Nat.compare_eq_eq.mpr he] at hltc
    simp only [Ordering.then] at hltc
    refine charlist_lt_append_left _ ?_
    refine List.lt.tail (lt_irrefl '!') (lt_irrefl '!') ?_
    exact releaseKey_lt v1.release v2.release hr1 hr2 hltc
  · exfalso
    rw [Nat.compare_eq_gt.mpr he] at hltc
    simp [Ordering.then] at hltc

/-- Claim C9 (counterexample): `1.0a1 < 1.0` in PEP 440 order, both parse,
yet the sort key of `1.0` is a strict prefix of the key of `1.0a1` — the
pre-release suffix sorts lexicographically *after* the release it
precedes. -/
theorem c9_counterexample :
    parsePep ("1.0a1") = some ⟨0, [1, 0], some ("a", 1), none, none, none⟩
    ∧ parsePep ("1.0") = some ⟨0, [1, 0], none, none, none, none⟩
    ∧ pepLt ⟨0, [1, 0], some ("a", 1), none, none, none⟩
        ⟨0, [1, 0], none, none, none, none⟩ = true
    ∧ ¬ get_version_sorting_string ("1.0a1") < get_version_sorting_string ("1.0")
    ∧ get_version_sorting_string ("1.0") < get_version_sorting_string ("1.0a1") := by
  refine ⟨by decide, by decide, by decide, ?_, ?_⟩
  · intro h
    rw [String.lt_iff_toList_lt] at h
    exact absurd h (by decide)
  · rw [String.lt_iff_toList_lt]
    decide

/-- Claim C9 (amended): the derived key is lexicographically faithful on the
fragment of PEP 440 made of plain releases — versions with no
pre/post/dev/local parts, an epoch below 100 and all release segments below
10000: strict PEP 440 order implies strict lexicographic key order.
Non-conforming (legacy) versions map to the raw version string unchanged. -/
theorem c9_sort_version_lexicographic (s1 s2 : String) (v1 v2 : PepVersion)
    (hp1 : parsePep s1 = some v1) (hp2 : parsePep s2 = some v2)
    (hpure1 : v1.pre = none ∧ v1.post = none ∧ v1.dev = none
      ∧ v1.localSegs = none)
    (hpure2 : v2.pre = none ∧ v2.post = none ∧ v2.dev = none
      ∧ v2.localSegs = none)
    (he1 : v1.epoch < 100) (he2 : v2.epoch < 100)
    (hr1 : ∀ n ∈ v1.release, n < 10000) (hr2 : ∀ n ∈ v2.release, n < 10000)
    (hlt : pepLt v1 v2 = true) :
    get_version_sorting_string s1 < get_version_sorting_string s2
    ∧ ∀ s, parsePep s = none → get_version_sorting_string s = s := by
  constructor
  · unfold get_version_sorting_string
    rw [hp1, hp2]
    rw [String.lt_iff_toList_lt]
    exact (List.lt_iff_lex_lt _ _).mp
      (sortKeyChars_lt_pure v1 v2 hpure1 hpure2 he1 he2 hr1 hr2 hlt)
  · intro s hs
    unfold get_version_sorting_string
    rw [hs]

/-- Witness for `c9_sort_version_lexicographic` at `1.0 < 1.1`. -/
theorem c9_sort_version_lexicographic_witness :
    get_version_sorting_string ("1.0") < get_version_sorting_string ("1.1")
    ∧ ∀ s, parsePep s = none → get_version_sorting_string s = s :=
  c9_sort_version_lexicographic ("1.0") ("1.1")
    ⟨0, [1, 0], none, none, none, none⟩ ⟨0, [1, 1], none, none, none, none⟩
    (by decide) (by decide) (by decide) (by decide) (by decide) (by decide)
    (by decide) (by decide) (by decide)

/-! ## Tag query filter (`db/filters.py`, `filter_ramps_by_tags`) and the
plugins root view's tag handling (`api/plugins/root.py`)

The `TagToRAMP` association table is a list of `(ramp_id, tag_id)` rows.
`filter_ramps_by_tags` produces two SQL conditions joined by `AND`:

* for `must_have_tags`, `RAMP.id IN (SELECT ramp_id FROM TagToRAMP WHERE
  tag_id IN must_ids GROUP BY ramp_id HAVING COUNT(tag_id) = len(must))`;
* for `forbidden_tags`, `RAMP.id NOT IN (SELECT DISTINCT ramp_id FROM
  TagToRAMP WHERE ramp_id IN forbidden_ids)` — the source filters on
  `TagToRAMP.ramp_id`, not `tag_id`, and the embedding reproduces that
  verbatim.
-/

/-- A row of the `TagToRAMP` association table. -/
structure TagToRAMPRow where
  ramp_id : Nat
  tag_id : Nat
  deriving DecidableEq, Repr

/-- `filter_ramps_by_tags` as the membership predicate its two conditions
impose on a `RAMP.id`, over a given `TagToRAMP` table.  Empty sequences
add no condition (Python truthiness of the argument). -/
def filter_ramps_by_tags (must_have_tags forbidden_tags : List Nat)
    (links : List TagToRAMPRow) (ramp_id : Nat) : Bool :=
  (if must_have_tags.isEmpty then true
   else
     (links.filter (fun l =>
       l.ramp_id == ramp_id && must_have_tags.contains l.tag_id)).length
       == must_have_tags.length)
  && (if forbidden_tags.isEmpty then true
      else
        ¬ (links.filter (fun l =>
          forbidden_tags.contains l.ramp_id)).any (fun l => l.ramp_id == ramp_id))

/-- The intended forbidden-tag condition per the function's own docstring
("a set of tags ... that must not be present in the plugin"): no link row
gives this ramp one of the forbidden tags. -/
def forbiddenTagsIntended (forbidden_tags : List Nat)
    (links : List TagToRAMPRow) (ramp_id : Nat) : Bool :=
  ¬ links.any (fun l => l.ramp_id == ramp_id && forbidden_tags.contains l.tag_id)

/-- The tag handling of `PluginsRootView.get`: resolve the requested
must-have and forbidden tag names against the tag table (a list of
`(tag_id, name)` rows); if any must-have name is unknown, the whole filter
is replaced by `filter_impossible()` (`1 != 1`), else the resolved id sets
go to `filter_ramps_by_tags`. -/
def pluginsRootTagQuery (tagTable : List (Nat × String))
    (mustNames forbiddenNames : List String) (links : List TagToRAMPRow)
    (ramp_id : Nat) : Bool :=
  let found := tagTable.filter (fun t =>
    mustNames.contains t.2 || forbiddenNames.contains t.2)
  let must_have_tags := (found.filter (fun t => mustNames.contains t.2)).map (·.1)
  let unknown_must_have := mustNames.filter (fun nm =>
    ¬ (found.filter (fun t => mustNames.contains t.2)).any (fun t => t.2 == nm))
  let forbidden_tags := (found.filter (fun t => forbiddenNames.contains t.2)).map (·.1)
  if ¬ unknown_must_have.isEmpty then false
  else filter_ramps_by_tags must_have_tags forbidden_tags links ramp_id

/-- Claim C2 (code bug, failing input): with tag table `[(5, "bad")]` and a
plugin `1` linked to tag `5`, asking to exclude tag name `"bad"` does not
exclude plugin `1` — the forbidden subquery filters `TagToRAMP.ramp_id`
instead of `tag_id`.  Conversely a plugin whose *database id* equals a
forbidden tag's id is excluded as soon as it has any tag at all.  The
must-have condition and the unknown-name short circuit behave as claimed,
which isolates the divergence to the forbidden set. -/
theorem c2_forbidden_tag_filter_bug :
    -- plugin 1 carries forbidden tag 5, is included anyway
    (filter_ramps_by_tags [] [5] [⟨1, 5⟩] 1 = true
      ∧ forbiddenTagsIntended [5] [⟨1, 5⟩] 1 = false
      ∧ pluginsRootTagQuery [(5, "bad")] [] ["bad"] [⟨1, 5⟩] 1 = true)
    -- plugin 5 does not carry tag 5 (it carries 7), is excluded anyway
    ∧ (filter_ramps_by_tags [] [5] [⟨5, 7⟩] 5 = false
        ∧ forbiddenTagsIntended [5] [⟨5, 7⟩] 5 = true)
    -- the must-have condition works: all required tags, and only then
    ∧ (filter_ramps_by_tags [3, 4] [] [⟨1, 3⟩, ⟨1, 4⟩] 1 = true
        ∧ filter_ramps_by_tags [3, 4] [] [⟨1, 3⟩] 1 = false)
    -- an unknown must-have name forces the empty result
    ∧ pluginsRootTagQuery [(3, "known")] ["unknown"] [] [⟨1, 3⟩] 1 = false := by
  decide

/-! ## Recommendation admissibility (`recommendations/voting.py`)

`DataToRAMP` rows are flat with their ids; `available_data` is the
context's mapping from data types to content-type lists; votes are the
merged `(plugin_id, score)` pairs (scores as exact rationals standing in
for Python floats, which `filter_votes` never computes on).
-/

/-- `split_mimetype` from `db/util.py`: split and normalize on the first
`/`; empty components become `*`. -/
def splitFirstChar (sep : Char) : List Char → List Char × Option (List Char)
  | [] => ([], none)
  | c :: rest =>
    if c = sep then ([], some rest)
    else
      let (a, b) := splitFirstChar sep rest
      (c :: a, b)

/-- `split_mimetype(mimetype_like)`. -/
def split_mimetype (m : String) : String × String :=
  if m = "" then ("*", "*")
  else
    match splitFirstChar '/' m.data with
    | (start, none) =>
      (if start.isEmpty then "*" else String.mk start, "*")
    | (start, some rest) =>
      (if start.isEmpty then "*" else String.mk start,
       if rest.isEmpty then "*" else String.mk rest)

/-- A `DataToRAMP` row together with its `ContentTypeToData` children
(pairs of split content-type components). -/
structure DataRow where
  id : Nat
  ramp_id : Nat
  required : Bool
  relation : String
  data_type_start : String
  data_type_end : String
  content_types : List (String × String)
  deriving DecidableEq, Repr

/-- One content-type filter clause of
`filter_content_type_to_data_by_content_type`; `none` when both components
are wildcards (the clause is skipped). -/
def contentTypeClause (ct : String) (c : String × String) : Bool :=
  let s := (split_mimetype ct).1
  let e := (split_mimetype ct).2
  (if s = "*" then true else c.1 == s || c.1 == "*")
    && (if e = "*" then true else c.2 == e || c.2 == "*")

/-- Whether the clause for `ct` is dropped (both components `*`). -/
def contentTypeClauseTrivial (ct : String) : Bool :=
  (split_mimetype ct).1 == "*" && (split_mimetype ct).2 == "*"

/-- `filter_data_to_ramp_by_data_types` as a row predicate, for the
argument combinations the recommendation engine uses (`relation` and
`required` as optional equality filters, a data type with `*` wildcards,
and an existential over the row's content types). -/
def filter_data_to_ramp_by_data_types (data_type : Option String)
    (content_type : List String) (required : Option Bool)
    (relation : Option String) (row : DataRow) : Bool :=
  (match relation with
   | some rel => row.relation == rel
   | none => true)
  && (match required with
      | some b => row.required == b
      | none => true)
  && (match data_type with
      | some dt =>
        if dt = "" then true
        else
          let s := (split_mimetype dt).1
          let e := (split_mimetype dt).2
          (if s = "*" then true
           else row.data_type_start == s || row.data_type_start == "*")
            && (if e = "*" then true
                else row.data_type_end == e || row.data_type_end == "*")
      | none => true)
  && (if content_type.isEmpty then true
      else
        let clauses := content_type.filter (fun ct => ¬ contentTypeClauseTrivial ct)
        if clauses.isEmpty then true
        else row.content_types.any (fun c => clauses.any (fun ct => contentTypeClause ct c)))

/-- `DATA_RELATION_CONSUMED`. -/
def DATA_RELATION_CONSUMED : String := "consumed"

/-- Whether a data row can be fulfilled from one of the `available_data`
entries (the `or_(*data_type_filters)` of
`get_plugin_ids_with_unmet_requirements`). -/
def satisfiableFrom (available_data : List (String × List String))
    (row : DataRow) : Bool :=
  available_data.any (fun e =>
    filter_data_to_ramp_by_data_types (some e.1) e.2 none none row)

/-- `get_plugin_ids_with_unmet_requirements`: empty or missing
`available_data` short-circuits to the empty set; otherwise the ids of
plugins owning a required consumed data row that no `available_data` entry
fulfils. -/
def get_plugin_ids_with_unmet_requirements
    (available_data : List (String × List String)) (rows : List DataRow) :
    Finset Nat :=
  if available_data.isEmpty then ∅
  else
    let innerIds := (rows.filter (fun row =>
      row.required && row.relation == DATA_RELATION_CONSUMED
        && satisfiableFrom available_data row)).map (·.id)
    ((rows.filter (fun row =>
      row.required && row.relation == DATA_RELATION_CONSUMED
        && ¬ innerIds.contains row.id)).map (·.ramp_id)).toFinset

/-- `filter_votes`: excludes plugins with unmet requirements and plugins
whose type is neither `processing` nor `conversion` (`ramps` lists the
`RAMP` table's `(id, plugin_type)` pairs). -/
def filter_votes (available_data : List (String × List String))
    (rows : List DataRow) (ramps : List (Nat × String))
    (votes : List (Nat × Rat)) : List (Nat × Rat) :=
  let ids_to_exclude := get_plugin_ids_with_unmet_requirements available_data rows
    ∪ ((ramps.filter (fun r =>
        r.2 ≠ "processing" ∧ r.2 ≠ "conversion")).map (·.1)).toFinset
  if ids_to_exclude = ∅ then votes
  else votes.filter (fun vote => vote.1 ∉ ids_to_exclude)

/-- Claim C4 (counterexample): with an empty `available_data` mapping, a
plugin with a required consumed data row — unsatisfiable from that empty
mapping — still appears in the filtered result, because
`get_plugin_ids_with_unmet_requirements` returns the empty set whenever
`available_data` is falsy. -/
theorem c4_counterexample :
    filter_votes [] [⟨1, 1, true, "consumed", "a", "b", []⟩]
        [(1, "processing")] [(1, 1)] = [(1, 1)]
    ∧ (⟨1, 1, true, "consumed", "a", "b", []⟩ : DataRow).required = true
    ∧ (⟨1, 1, true, "consumed", "a", "b", []⟩ : DataRow).relation
        = DATA_RELATION_CONSUMED
    ∧ satisfiableFrom [] ⟨1, 1, true, "consumed", "a", "b", []⟩ = false := by
  refine ⟨?_, rfl, rfl, rfl⟩
  decide

/-- Claim C4 (amended): every plugin in the filtered result has type
`processing` or `conversion`; and whenever the context's `available_data`
is non-empty, no result plugin owns a required consumed data row that
cannot be satisfied from `available_data` (data-row ids assumed unique, as
they are primary keys).  With empty or missing `available_data` the
requirement check is skipped entirely. -/
theorem c4_recommendation_admissibility
    (available_data : List (String × List String)) (rows : List DataRow)
    (ramps : List (Nat × String)) (votes : List (Nat × Rat))
    (v : Nat × Rat) (hv : v ∈ filter_votes available_data rows ramps votes)
    (huniq : ∀ r1 ∈ rows, ∀ r2 ∈ rows, r1.id = r2.id → r1 = r2) :
    (∀ t, (v.1, t) ∈ ramps → t = "processing" ∨ t = "conversion")
    ∧ (available_data ≠ [] →
        ∀ row ∈ rows, row.ramp_id = v.1 → row.required = true →
          row.relation = DATA_RELATION_CONSUMED →
          satisfiableFrom available_data row = true) := by
  have hnotin : v.1 ∉ get_plugin_ids_with_unmet_requirements available_data rows
      ∪ ((ramps.filter (fun r =>
          r.2 ≠ "processing" ∧ r.2 ≠ "conversion")).map (·.1)).toFinset := by
    unfold filter_votes at hv
    set ex := get_plugin_ids_with_unmet_requirements available_data rows
      ∪ ((ramps.filter (fun r =>
          r.2 ≠ "processing" ∧ r.2 ≠ "conversion")).map (·.1)).toFinset with hex
    by_cases hempty : ex = ∅
    · rw [hempty]
      simp
    · rw [if_neg hempty] at hv
      have := List.mem_filter.mp hv
      simpa using this.2
  rw [Finset.mem_union, not_or] at hnotin
  obtain ⟨hnotunmet, hnottype⟩ := hnotin
  constructor
  · intro t hmem
    by_contra hcon
    rw [not_or] at hcon
    apply hnottype
    rw [List.mem_toFinset, List.mem_map]
    exact ⟨(v.1, t), List.mem_filter.mpr ⟨hmem, by simp [hcon.1, hcon.2]⟩, rfl⟩
  · intro hne row hrow hramp hreq hrel
    by_contra hcon
    apply hnotunmet
    unfold get_plugin_ids_with_unmet_requirements
    rw [if_neg (by simpa using hne)]
    simp only [List.mem_toFinset, List.mem_map]
    refine ⟨row, List.mem_filter.mpr ⟨hrow, ?_⟩, hramp⟩
    simp only [Bool.and_eq_true, decide_eq_true_eq, Bool.not_eq_eq_eq_not,
      Bool.not_true, hreq, hrel, beq_self_eq_true, true_and]
    -- the row's id is not among the fulfillable ids
    intro hcontains
    rw [List.contains_iff_exists_mem_beq] at hcontains
    simp only [List.mem_map, beq_iff_eq] at hcontains
    obtain ⟨x, ⟨r2, hr2mem, hr2x⟩, hxid⟩ := hcontains
    subst hr2x
    have hcontains : ∃ r2 ∈ (rows.filter (fun row =>
        row.required && row.relation == DATA_RELATION_CONSUMED
          && satisfiableFrom available_data row)), r2.id = row.id :=
      ⟨r2, hr2mem, hxid.symm⟩
    obtain ⟨r2, hr2mem, hr2id⟩ := hcontains
    have hr2 := List.mem_filter.mp hr2mem
    have heq : r2 = row := huniq r2 hr2.1 row hrow hr2id
    subst heq
    simp only [Bool.and_eq_true] at hr2
    exact hcon hr2.2.2

/-- Witness for `c4_recommendation_admissibility` on a one-plugin catalog
whose single requirement is satisfiable from the available data. -/
theorem c4_recommendation_admissibility_witness :
    (∀ t, ((1 : Nat), t) ∈ [((1 : Nat), ("processing" : String))]
      → t = "processing" ∨ t = "conversion")
    ∧ ([(("a/b" : String), ["x/y"])] ≠ [] →
        ∀ row ∈ [(⟨1, 1, true, "consumed", "a", "b", [("x", "y")]⟩ : DataRow)],
          row.ramp_id = ((1 : Nat), (1 : Rat)).1 → row.required = true →
          row.relation = DATA_RELATION_CONSUMED →
          satisfiableFrom [("a/b", ["x/y"])] row = true) :=
  c4_recommendation_admissibility [("a/b", ["x/y"])]
    [⟨1, 1, true, "consumed", "a", "b", [("x", "y")]⟩] [(1, "processing")]
    [(1, 1)] (1, 1) (by decide)
    (by
      intro r1 h1 r2 h2 hid
      simp only [List.mem_singleton] at h1 h2
      rw [h1, h2])

/-! ### C8: `update_plugin_data` ingest (`db/util.py`) -/

/-- `DATA_RELATION_PRODUCED`. -/
def DATA_RELATION_PRODUCED : String := "produced"

/-- A `DataToRAMP` row as built by `_prepare_plugin_data`, with its
`ContentTypeToData` children inlined as split pairs. -/
structure IngestData where
  identifier : String
  relation : String
  required : Bool
  data_type_start : String
  data_type_end : String
  content_types : List (String × String)
  deriving DecidableEq, Repr

/-- A `TagToDependency` link: the tag name (after `lstrip("!")`) and the
`exclude` flag (`t.startswith("!")`). -/
structure IngestDependency where
  required : Bool
  parameter : String
  plugin_id : Option String
  version : Option String
  plugin_type : Option String
  dependency_tags : List (String × Bool)
  deriving DecidableEq, Repr

/-- One entry of `dataInput` / `dataOutput` in a plugin self-description;
`none` models an absent JSON key (each `dict.get` has a default). -/
structure IODesc where
  name : Option String := none
  parameter : Option String := none
  dataType : Option String := none
  contentType : List String := []
  required : Bool := false
  deriving DecidableEq, Repr

/-- One entry of `pluginDependencies` in a plugin self-description. -/
structure DepDesc where
  required : Bool := false
  parameter : Option String := none
  name : Option String := none
  version : Option String := none
  type : Option String := none
  tags : List String := []
  deriving DecidableEq, Repr

/-- The `entryPoint` object of a plugin self-description. -/
structure EntryPoint where
  href : String
  uiHref : String
  dataInput : List IODesc := []
  dataOutput : List IODesc := []
  pluginDependencies : List DepDesc := []
  deriving DecidableEq, Repr

/-- A plugin self-description (`plugin_data`), the JSON fetched from the
plugin root endpoint. `title : Option (Option String)` distinguishes an
absent key (outer `none`, `dict.get` falls back to the plugin id) from an
explicit JSON `null` (`some none`, which makes `RAMP.name` None). -/
structure PluginDesc where
  name : String
  version : String
  title : Option (Option String) := none
  description : Option String := none
  type : String
  tags : List String := []
  entryPoint : EntryPoint
  deriving DecidableEq, Repr

/-- A `RAMP` row as produced by ingest, with its `TagToRAMP` links
(`tags` as tag names), `DataToRAMP` and `DependencyToRAMP` children
inlined, and the owning seed as `seed`. -/
structure RampRow where
  seed : Option String
  plugin_id : String
  version : String
  name : Option String
  description : String
  plugin_type : String
  tags : List String
  url : String
  entry_url : String
  ui_url : String
  data : List IngestData
  dependencies : List IngestDependency
  last_available : Int
  deriving DecidableEq, Repr

/-- The catalog state touched by `update_plugin_data`: the `RAMP` table,
the `PluginTag` table (as tag names), and the `Seed` table (as URLs). -/
structure Catalog where
  plugins : List RampRow
  tagTable : List String
  seeds : List String
  deriving DecidableEq, Repr

/-- `PluginTag.get_or_create(tag)`: look the name up in the tag table and
append a fresh row when absent; returns the tag and the new table. -/
def get_or_create (tbl : List String) (t : String) : String × List String :=
  if tbl.contains t then (t, tbl) else (t, tbl ++ [t])

/-- First-occurrence deduplication, modelling the Python `set(tags)`
built by `get_or_create_all` (set iteration order is unspecified; the
model fixes first-occurrence order). -/
def pyDedupGo (seen : List String) : List String → List String
  | [] => []
  | t :: rest =>
    if seen.contains t then pyDedupGo seen rest
    else t :: pyDedupGo (seen ++ [t]) rest

/-- See `pyDedupGo`. -/
def pyDedup (l : List String) : List String := pyDedupGo [] l

/-- `PluginTag.get_or_create_all(tags)`: empty input short-circuits,
otherwise `get_or_create` over `set(tags)`, threading the tag table. -/
def get_or_create_all (tbl : List String) (tags : List String) :
    List String × List String :=
  if tags.isEmpty then ([], tbl)
  else
    (pyDedup tags).foldl
      (fun acc t =>
        let r := get_or_create acc.2 t
        (acc.1 ++ [r.1], r.2))
      ([], tbl)

/-- `t.lstrip("!")`: drop every leading `!`. -/
def lstripBang (s : String) : String :=
  String.mk (s.data.dropWhile (fun c => c == '!'))

/-- `t.startswith("!")`. -/
def startsBang (s : String) : Bool :=
  match s.data with
  | c :: _ => c == '!'
  | [] => false

/-- The `TagToDependency` list of one dependency: `get_or_create` on each
tag name stripped of leading `!`, with `exclude` when `!`-prefixed. -/
def depTags (tbl : List String) (ts : List String) :
    List (String × Bool) × List String :=
  ts.foldl
    (fun acc t =>
      let r := get_or_create acc.2 (lstripBang t)
      (acc.1 ++ [(r.1, startsBang t)], r.2))
    ([], tbl)

/-- `_prepare_dependencies(entry_point)`, threading the tag table through
the `PluginTag.get_or_create` calls. -/
def prepare_dependencies (tbl : List String) (deps : List DepDesc) :
    List IngestDependency × List String :=
  deps.foldl
    (fun acc d =>
      let r := depTags acc.2 d.tags
      (acc.1 ++
        [{ required := d.required,
           parameter := d.parameter.getD (""),
           plugin_id := d.name,
           version := d.version,
           plugin_type := d.type,
           dependency_tags := r.1 }],
       r.2))
    ([], tbl)

/-- One `DataToRAMP` of `_prepare_plugin_data`: `identifier` comes from
the per-direction key, `dataType` and every `contentType` entry are split
with `split_mimetype`. -/
def ioRow (ident : String) (relation : String) (io : IODesc) : IngestData :=
  let dt := split_mimetype (io.dataType.getD (""))
  { identifier := ident,
    relation := relation,
    required := io.required,
    data_type_start := dt.1,
    data_type_end := dt.2,
    content_types := io.contentType.map split_mimetype }

/-- `_prepare_plugin_data(entry_point)`: inputs (identifier key
`parameter`, relation consumed) then outputs (identifier key `name`,
relation produced), in that chain order. -/
def prepare_plugin_data (ep : EntryPoint) : List IngestData :=
  ep.dataInput.map (fun io => ioRow (io.parameter.getD ("")) DATA_RELATION_CONSUMED io)
    ++ ep.dataOutput.map (fun io => ioRow (io.name.getD ("")) DATA_RELATION_PRODUCED io)

/-- Scheme characters of a URL reference. Modelled from urllib. -/
def isSchemeChar (c : Char) : Bool :=
  c.isAlpha || c.isDigit || c == '+' || c == '-' || c == '.'

/-- Whether a URL reference starts with a scheme. Modelled from urllib. -/
def hasSchemeChars (cs : List Char) : Bool :=
  match cs.dropWhile isSchemeChar with
  | ':' :: _ => !(cs.takeWhile isSchemeChar).isEmpty
  | _ => false

/-- Split a URL at the first `://`. Modelled from urllib. -/
def splitSchemeSep : List Char → Option (List Char × List Char)
  | [] => none
  | ':' :: '/' :: '/' :: rest => some ([], rest)
  | c :: rest =>
    match splitSchemeSep rest with
    | some r => some (c :: r.1, r.2)
    | none => none

/-- The scheme and authority part of an absolute URL. Modelled from
urllib. -/
def schemeAuthority (cs : List Char) : List Char :=
  match splitSchemeSep cs with
  | some r => r.1 ++ [':', '/', '/'] ++ r.2.takeWhile (fun c => c != '/')
  | none => []

/-- Everything up to and including the last `/`. Modelled from urllib. -/
def dropLastSegment (cs : List Char) : List Char :=
  (cs.reverse.dropWhile (fun c => c != '/')).reverse

/-- Modelled from urllib: `urljoin(base, url)` simplified to the cases a
plugin self-description exercises — an absolute URL is kept, a
root-relative path replaces the base path, a relative path is resolved
against the base URL's directory. -/
def urljoin (base url : String) : String :=
  if hasSchemeChars url.data then url
  else
    match url.data with
    | '/' :: _ => String.mk (schemeAuthority base.data ++ url.data)
    | _ => String.mk (dropLastSegment base.data ++ url.data)

/-- The `RAMP.plugin_id == plugin_id, RAMP.version == plugin_version`
where-clause of the lookup query. -/
def keyMatches (pid ver : String) (r : RampRow) : Bool :=
  r.plugin_id == pid && r.version == ver

/-- The tail of `update_plugin_data` applied to the found or created row:
`found_plugin.last_available = now` and the `name is None → "UNNAMED"`
fix-up. -/
def finalizeRow (r : RampRow) (now : Int) : RampRow :=
  { r with
    last_available := now,
    name := match r.name with
            | none => some ("UNNAMED")
            | some n => some n }

/-- The seed lookup of the create path: skipped for a falsy `seed_url`,
otherwise `scalar_one()` over `Seed.url == seed_url` (an error unless
exactly one seed row matches). -/
def seedLookup (seeds : List String) (seed_url : Option String) :
    Except Unit (Option String) :=
  match seed_url with
  | none => .ok none
  | some s =>
    if s.data.isEmpty then .ok none
    else
      match seeds.filter (fun x => x == s) with
      | [t] => .ok (some t)
      | _ => .error ()

/-- `update_plugin_data(plugin_data, now=now, url=url, seed_url=seed_url)`
from `db/util.py`. `scalar_one_or_none` errors when the key query finds
two or more rows; the create path builds the `RAMP` with its tags, data
and dependencies and both paths finish with `finalizeRow`. Returns the
new catalog, the found/created row and `is_new_plugin`. -/
def update_plugin_data (cat : Catalog) (pd : PluginDesc) (now : Int)
    (url : String) (seed_url : Option String) :
    Except Unit (Catalog × RampRow × Bool) :=
  let pid := pd.name
  let ver := pd.version
  match cat.plugins.filter (keyMatches pid ver) with
  | [] =>
    let ep := pd.entryPoint
    match seedLookup cat.seeds seed_url with
    | .error e => .error e
    | .ok seed =>
      let tg := get_or_create_all cat.tagTable pd.tags
      let dp := prepare_dependencies tg.2 ep.pluginDependencies
      let row : RampRow :=
        { seed := seed,
          plugin_id := pid,
          version := ver,
          name := (match pd.title with
                   | none => some pid
                   | some t => t),
          description := pd.description.getD (""),
          plugin_type := pd.type,
          tags := tg.1,
          url := url,
          entry_url := urljoin url ep.href,
          ui_url := urljoin url ep.uiHref,
          data := prepare_plugin_data ep,
          dependencies := dp.1,
          last_available := 0 }
      let fr := finalizeRow row now
      .ok ({ cat with plugins := cat.plugins ++ [fr], tagTable := dp.2 }, fr, true)
  | [r] =>
    let fr := finalizeRow r now
    .ok ({ cat with
           plugins := cat.plugins.map (fun x => if keyMatches pid ver x then fr else x) },
         fr, false)
  | _ => .error ()

/-- `finalizeRow` leaves the lookup key untouched. -/
lemma keyMatches_finalizeRow (pid ver : String) (r : RampRow) (n : Int) :
    keyMatches pid ver (finalizeRow r n) = keyMatches pid ver r := rfl

/-- A second `finalizeRow` only moves `last_available`: the name fix-up
has already happened. -/
lemma finalizeRow_finalizeRow (r : RampRow) (n1 n2 : Int) :
    finalizeRow (finalizeRow r n1) n2 =
      { finalizeRow r n1 with last_available := n2 } := by
  cases hr : r.name <;> simp [finalizeRow, hr]

/-- Replacing matches by a fixed row in a list without matches does
nothing. -/
lemma c8_map_const_of_filter_nil {α : Type} (p : α → Bool) (c : α) :
    ∀ l : List α, l.filter p = [] →
      l.map (fun x => if p x then c else x) = l := by
  intro l
  induction l with
  | nil => intro _; rfl
  | cons b t ih =>
    intro h
    rw [List.filter_cons] at h
    cases hp : p b
    · rw [hp] at h
      simp only [Bool.false_eq_true, if_false] at h
      simp [hp, ih h]
    · rw [hp] at h
      simp at h

/-- Rewriting matches pointwise in a list without matches does nothing. -/
lemma c8_map_of_filter_nil {α : Type} (p : α → Bool) (g : α → α) :
    ∀ l : List α, l.filter p = [] →
      l.map (fun x => if p x then g x else x) = l := by
  intro l
  induction l with
  | nil => intro _; rfl
  | cons b t ih =>
    intro h
    rw [List.filter_cons] at h
    cases hp : p b
    · rw [hp] at h
      simp only [Bool.false_eq_true, if_false] at h
      simp [hp, ih h]
    · rw [hp] at h
      simp at h

/-- Replacing the unique match of a list by a still-matching row leaves a
unique match: the replacement. -/
lemma c8_filter_map_singleton {α : Type} (p : α → Bool) (c : α)
    (hc : p c = true) :
    ∀ l : List α, ∀ a : α, l.filter p = [a] →
      (l.map (fun x => if p x then c else x)).filter p = [c] := by
  intro l
  induction l with
  | nil => intro a hf; simp at hf
  | cons b t ih =>
    intro a hf
    rw [List.filter_cons] at hf
    cases hp : p b
    · rw [hp] at hf
      simp only [Bool.false_eq_true, if_false] at hf
      simp only [List.map_cons, hp, Bool.false_eq_true, if_false, List.filter_cons]
      exact ih a hf
    · rw [hp] at hf
      simp only [if_true] at hf
      rw [List.cons.injEq] at hf
      obtain ⟨hba, hts⟩ := hf
      simp only [List.map_cons, hp, if_true, List.filter_cons, hc]
      rw [c8_map_const_of_filter_nil p c t hts, hts]

/-- Two pointwise replacements of the unique match agree when they agree
on that match. -/
lemma c8_map_eq_of_filter_singleton {α : Type} (p : α → Bool) (c : α)
    (g : α → α) :
    ∀ l : List α, ∀ a : α, l.filter p = [a] → g a = c →
      l.map (fun x => if p x then c else x) =
        l.map (fun x => if p x then g x else x) := by
  intro l
  induction l with
  | nil => intro a hf _; rfl
  | cons b t ih =>
    intro a hf hg
    rw [List.filter_cons] at hf
    cases hp : p b
    · rw [hp] at hf
      simp only [Bool.false_eq_true, if_false] at hf
      simp only [List.map_cons, hp, Bool.false_eq_true, if_false]
      rw [ih a hf hg]
    · rw [hp] at hf
      simp only [if_true] at hf
      rw [List.cons.injEq] at hf
      obtain ⟨hba, hts⟩ := hf
      simp only [List.map_cons, hp, if_true]
      rw [hba, hg, c8_map_const_of_filter_nil p c t hts,
        c8_map_of_filter_nil p g t hts]

/-- A run of `update_plugin_data` on a catalog whose unique key match is
an already-finalized row only refreshes that row's `last_available`. -/
lemma c8_second_run (cat1 : Catalog) (pd : PluginDesc) (now2 : Int)
    (url : String) (seed_url : Option String) (r0 : RampRow) (n0 : Int)
    (hfil : cat1.plugins.filter (keyMatches pd.name pd.version) =
      [finalizeRow r0 n0]) :
    update_plugin_data cat1 pd now2 url seed_url =
      .ok ({ cat1 with plugins := cat1.plugins.map (fun r => if keyMatches pd.name pd.version r then { r with last_available := now2 } else r) }, { finalizeRow r0 n0 with last_available := now2 }, false) := by
  simp only [update_plugin_data, hfil]
  rw [finalizeRow_finalizeRow]
  rw [c8_map_eq_of_filter_singleton (keyMatches pd.name pd.version)
      ({ finalizeRow r0 n0 with last_available := now2 })
      (fun r => { r with last_available := now2 }) cat1.plugins
      (finalizeRow r0 n0) hfil rfl]

/-- C8: running the per-seed discovery ingest (`update_plugin_data`)
twice on the same plugin self-description leaves the catalog unchanged
except for the matched plugin's `last_available`: the second run maps
only that row to itself with the new timestamp, keeps the tag and seed
tables as they were, creates or deletes no row, and reports
`is_new_plugin = false`; the returned row likewise differs from the
first run's row only in `last_available`. -/
theorem c8_ingest_idempotent (cat : Catalog) (pd : PluginDesc)
    (now1 now2 : Int) (url : String) (seed_url : Option String)
    (cat1 : Catalog) (row1 : RampRow) (b1 : Bool)
    (h : update_plugin_data cat pd now1 url seed_url = .ok (cat1, row1, b1)) :
    update_plugin_data cat1 pd now2 url seed_url =
      .ok ({ cat1 with plugins := cat1.plugins.map (fun r => if keyMatches pd.name pd.version r then { r with last_available := now2 } else r) }, { row1 with last_available := now2 }, false) := by
  rcases hm : cat.plugins.filter (keyMatches pd.name pd.version) with
    _ | ⟨r, _ | ⟨r2, rest⟩⟩
  · -- create path
    simp only [update_plugin_data, hm] at h
    rcases hs : seedLookup cat.seeds seed_url with e | seed
    · rw [hs] at h
      exact absurd h (by simp)
    · rw [hs] at h
      rw [Except.ok.injEq, Prod.mk.injEq, Prod.mk.injEq] at h
      obtain ⟨hcat, hrow, hb⟩ := h
      have hkey : keyMatches pd.name pd.version row1 = true := by
        rw [← hrow, keyMatches_finalizeRow]
        simp [keyMatches]
      have hfil : cat1.plugins.filter (keyMatches pd.name pd.version) =
          [row1] := by
        rw [← hcat, ← hrow]
        simp only [List.filter_append, hm, List.filter_cons, List.filter_nil]
        rw [← hrow] at hkey
        simp [hkey]
      rw [← hrow] at hfil
      have := c8_second_run cat1 pd now2 url seed_url _ now1 hfil
      rw [hrow] at this
      exact this
  · -- update path: the key query found exactly one row
    simp only [update_plugin_data, hm] at h
    rw [Except.ok.injEq, Prod.mk.injEq, Prod.mk.injEq] at h
    obtain ⟨hcat, hrow, hb⟩ := h
    have hkeyr : keyMatches pd.name pd.version r = true := by
      have hmem : r ∈ cat.plugins.filter (keyMatches pd.name pd.version) := by
        rw [hm]; exact List.mem_singleton_self r
      exact (List.mem_filter.mp hmem).2
    have hkey : keyMatches pd.name pd.version (finalizeRow r now1) = true := by
      rw [keyMatches_finalizeRow]; exact hkeyr
    have hfil : cat1.plugins.filter (keyMatches pd.name pd.version) =
        [finalizeRow r now1] := by
      rw [← hcat]
      exact c8_filter_map_singleton (keyMatches pd.name pd.version)
        (finalizeRow r now1) hkey cat.plugins r hm
    have := c8_second_run cat1 pd now2 url seed_url r now1 hfil
    rw [hrow] at this
    exact this
  · -- two or more key matches: scalar_one_or_none raises
    simp only [update_plugin_data, hm] at h
    exact absurd h (by simp)

/-- A small plugin self-description for the C8 witness. -/
def c8pd : PluginDesc :=
  { name := "p", version := "1.0", type := "processing", tags := ["t"],
    entryPoint := { href := "e", uiHref := "u" } }

/-- The row the first ingest run of `c8pd` creates. -/
def c8row1 : RampRow :=
  { seed := none, plugin_id := "p", version := "1.0", name := some ("p"),
    description := "", plugin_type := "processing", tags := ["t"],
    url := "http://h/a", entry_url := "http://h/e", ui_url := "http://h/u",
    data := [], dependencies := [], last_available := 5 }

/-- The catalog before the first ingest run of `c8pd`. -/
def c8cat : Catalog := { plugins := [], tagTable := ["t"], seeds := [] }

/-- The catalog after the first ingest run of `c8pd`. -/
def c8cat1 : Catalog := { plugins := [c8row1], tagTable := ["t"], seeds := [] }

/-- Witness for `c8_ingest_idempotent` on a concrete first run. -/
theorem c8_ingest_idempotent_witness :
    update_plugin_data c8cat1 c8pd 9 ("http://h/a") none =
      .ok ({ c8cat1 with plugins := c8cat1.plugins.map (fun r => if keyMatches c8pd.name c8pd.version r then { r with last_available := 9 } else r) }, { c8row1 with last_available := 9 }, false) :=
  c8_ingest_idempotent c8cat c8pd 5 9 ("http://h/a") none c8cat1 c8row1 true
    (by decide)

end QhanaRegistry
